import Mathlib

/-!
Verification of the vibe-chef Telegram recipe bot against its design
specification.  The development shallowly embeds the data model and the
pure logic of the bot: the recipe key-value store (in-memory and
Redis-backed variants, src/services/storage.ts), the ISO-8601 timestamp
serialization used by the Redis backend, the YouTube URL validation and
transcript client (src/services/supadata.ts), the AI extraction and
translation pipeline (src/services/ai.ts), the recipe command handler
(src/bot/handlers/recipe.ts) and the manual-entry conversation handler
(src/bot/handlers/conversation.ts).  External I/O (HTTP fetches, the LLM,
Telegram transport) is modelled by passing each call result as an explicit
oracle argument; everything else is translated directly from the source.
-/

/-! ## JavaScript string primitives

The bot compares strings with the JavaScript functions toLowerCase,
includes and trim.  We model toLowerCase on the alphabets the program
actually uses (ASCII and the Cyrillic block used by the Russian UI
strings), includes as substring occurrence over character lists, and trim
with the Lean whitespace trimmer.
-/

/-- Model of JavaScript toLowerCase for one character: ASCII A-Z and the
Cyrillic uppercase range (U+0410 to U+042F, plus U+0401) map to their
lowercase forms; every other character is unchanged. -/
def jsCharToLower (c : Char) : Char :=
  if 'A' ≤ c ∧ c ≤ 'Z' then Char.ofNat (c.toNat + 32)
  else if 'А' ≤ c ∧ c ≤ 'Я' then Char.ofNat (c.toNat + 32)
  else if c = 'Ё' then 'ё'
  else c

/-- Model of JavaScript String.prototype.toLowerCase. -/
def jsToLower (s : String) : String := String.mk (s.data.map jsCharToLower)

/-- Does the pattern list occur at the head of the target list? -/
def listStartsWith : List Char → List Char → Bool
  | [], _ => true
  | _ :: _, [] => false
  | p :: ps, c :: cs => p == c && listStartsWith ps cs

/-- Does the needle occur anywhere in the haystack?  Model of
JavaScript String.prototype.includes restricted to character lists. -/
def listOccurs (n : List Char) : List Char → Bool
  | [] => listStartsWith n []
  | c :: cs => listStartsWith n (c :: cs) || listOccurs n cs

/-- Model of JavaScript String.prototype.includes. -/
def containsSub (needle hay : String) : Bool := listOccurs needle.data hay.data

/-! ## Data model

The YouTube-extraction variant of the recipe record
(src/types/recipe.ts).  JavaScript Date values are modelled by their
millisecond epoch offset; a valid Date holds an offset of magnitude at
most 8.64e15.  The cookingTime field is declared string in TypeScript but
the extraction pipeline copies it from a parsed JSON object that may omit
it, so it is modelled as an optional string (none = undefined).
-/

/-- The two language tags the pipeline distinguishes. -/
inductive Lang where
  | en
  | ru
deriving DecidableEq, Repr

/-- Recipe record of the YouTube-extraction variant (src/types/recipe.ts). -/
structure Recipe where
  id : String
  name : String
  cookingTime : Option String
  ingredients : List String
  instructions : List String
  originalLanguage : Lang
  youtubeUrl : String
  transcript : String
  createdAt : Int
deriving DecidableEq, Repr

/-- A JavaScript Date holds an epoch offset of magnitude at most 8.64e15
milliseconds; anything else is an invalid Date. -/
def validDate (t : Int) : Prop :=
  -8640000000000000 ≤ t ∧ t ≤ 8640000000000000

instance (t : Int) : Decidable (validDate t) := by
  unfold validDate
  infer_instance

/-! ## Civil calendar arithmetic

Date.prototype.toISOString converts the epoch offset to a proleptic
Gregorian date; the conversion used here is the standard era-based
algorithm.  The correctness of the year-of-era formula is established by
checking the 400 year boundaries of one era with a verified range checker
and extending to all days of the era by monotonicity.
-/

/-- Numerator of the year-of-era computation for a day-of-era. -/
def civilNum (doe : Nat) : Nat := doe - doe / 1460 + doe / 36524 - doe / 146096

/-- Year of era (0 to 399) of a day of era (0 to 146096). -/
def yoeOf (doe : Nat) : Nat := civilNum doe / 365

/-- First day of era of a year of era (years start March 1). -/
def yearStart (y : Nat) : Nat := 365 * y + y / 4 - y / 100

/-- Last day of era belonging to a year of era. -/
def yearEnd (y : Nat) : Nat := cond (Nat.beq y 399) 146096 (yearStart (y + 1) - 1)

theorem civilNum_step (doe : Nat) (h : doe < 146096) :
    civilNum doe ≤ civilNum (doe + 1) := by
  unfold civilNum
  omega

theorem yoeOf_mono {a b : Nat} (hab : a ≤ b) (hb : b ≤ 146096) : yoeOf a ≤ yoeOf b := by
  induction b with
  | zero =>
    have : a = 0 := by omega
    subst this
    exact Nat.le_refl _
  | succ n ih =>
    rcases Nat.lt_or_ge a (n + 1) with hlt | hge
    · have h1 : yoeOf a ≤ yoeOf n := ih (by omega) (by omega)
      have h2 : yoeOf n ≤ yoeOf (n + 1) :=
        Nat.div_le_div_right (civilNum_step n (by omega))
      omega
    · have : a = n + 1 := by omega
      subst this
      exact Nat.le_refl _

/-- Binary range checker: tests a boolean predicate on every point of an
interval with logarithmic recursion depth. -/
def rangeAll (f : Nat → Bool) : Nat → Nat → Nat → Bool := fun fuel =>
  Nat.rec (motive := fun _ => Nat → Nat → Bool)
    (fun lo len => cond (Nat.beq len 0) true (cond (Nat.beq len 1) (f lo) false))
    (fun _ ih lo len =>
      cond (Nat.beq len 0) true
        (cond (Nat.beq len 1) (f lo)
          (ih lo (len / 2) && ih (lo + len / 2) (len - len / 2))))
    fuel

theorem rangeAll_sound (f : Nat → Bool) (fuel : Nat) : ∀ lo len,
    rangeAll f fuel lo len = true → ∀ i, i < len → f (lo + i) = true := by
  induction fuel with
  | zero =>
    intro lo len h i hi
    cases hb0 : Nat.beq len 0 with
    | true => have := Nat.eq_of_beq_eq_true hb0; omega
    | false =>
      rw [show rangeAll f 0 lo len
          = cond (Nat.beq len 0) true (cond (Nat.beq len 1) (f lo) false) from rfl, hb0] at h
      cases hb1 : Nat.beq len 1 with
      | true =>
        have := Nat.eq_of_beq_eq_true hb1
        have hiz : i = 0 := by omega
        subst hiz
        rw [hb1] at h
        simpa using h
      | false => rw [hb1] at h; simp at h
  | succ n ih =>
    intro lo len h i hi
    rw [show rangeAll f (n + 1) lo len
        = cond (Nat.beq len 0) true
            (cond (Nat.beq len 1) (f lo)
              (rangeAll f n lo (len / 2) && rangeAll f n (lo + len / 2) (len - len / 2)))
      from rfl] at h
    cases hb0 : Nat.beq len 0 with
    | true => have := Nat.eq_of_beq_eq_true hb0; omega
    | false =>
      rw [hb0] at h
      cases hb1 : Nat.beq len 1 with
      | true =>
        have := Nat.eq_of_beq_eq_true hb1
        have hiz : i = 0 := by omega
        subst hiz
        rw [hb1] at h
        simpa using h
      | false =>
        rw [hb1] at h
        simp only [cond_false, Bool.and_eq_true] at h
        by_cases hc : i < len / 2
        · exact ih lo (len / 2) h.1 i hc
        · have := ih (lo + len / 2) (len - len / 2) h.2 (i - len / 2) (by omega)
          rw [show lo + len / 2 + (i - len / 2) = lo + i by omega] at this
          exact this

/-- Boundary test for one year of era: the year-of-era formula is exact at
the first and last day of the year. -/
def yearCheck (y : Nat) : Bool :=
  Nat.beq (yoeOf (yearStart y)) y && Nat.beq (yoeOf (yearEnd y)) y

theorem yearCheck_all : rangeAll yearCheck 10 0 400 = true := by decide

theorem yearCheck_true (y : Nat) (hy : y ≤ 399) :
    yoeOf (yearStart y) = y ∧ yoeOf (yearEnd y) = y := by
  have := rangeAll_sound yearCheck 10 0 400 yearCheck_all y (by omega)
  rw [Nat.zero_add] at this
  unfold yearCheck at this
  rw [Bool.and_eq_true] at this
  exact ⟨Nat.eq_of_beq_eq_true this.1, Nat.eq_of_beq_eq_true this.2⟩

theorem yearStart_mono {a b : Nat} (hab : a ≤ b) : yearStart a ≤ yearStart b := by
  have h4 : a / 4 ≤ b / 4 := Nat.div_le_div_right hab
  have h100 : a / 100 ≤ b / 100 := Nat.div_le_div_right hab
  unfold yearStart
  omega

theorem yoe_correct (doe : Nat) (h : doe ≤ 146096) :
    yoeOf doe ≤ 399 ∧ yearStart (yoeOf doe) ≤ doe ∧ doe - yearStart (yoeOf doe) ≤ 365 := by
  have h399 : yoeOf 146096 = 399 := by
    have := (yearCheck_true 399 (by omega)).2
    simpa [yearEnd] using this
  have hle : yoeOf doe ≤ 399 := by
    have := yoeOf_mono h (by omega)
    omega
  have hstart : yearStart (yoeOf doe) ≤ doe := by
    by_contra hcon
    push_neg at hcon
    have hy1 : 1 ≤ yoeOf doe := by
      rcases Nat.eq_zero_or_pos (yoeOf doe) with h0 | h1
      · rw [h0] at hcon
        unfold yearStart at hcon
        omega
      · exact h1
    have hEnd : yoeOf (yearEnd (yoeOf doe - 1)) = yoeOf doe - 1 :=
      (yearCheck_true (yoeOf doe - 1) (by omega)).2
    have hEndVal : yearEnd (yoeOf doe - 1) = yearStart (yoeOf doe) - 1 := by
      unfold yearEnd
      cases hb : Nat.beq (yoeOf doe - 1) 399 with
      | true =>
        have := Nat.eq_of_beq_eq_true hb
        omega
      | false =>
        simp only [cond_false]
        rw [show yoeOf doe - 1 + 1 = yoeOf doe by omega]
    have hmono : yoeOf doe ≤ yoeOf (yearEnd (yoeOf doe - 1)) := by
      apply yoeOf_mono
      · rw [hEndVal]
        omega
      · rw [hEndVal]
        have := yearStart_mono (show yoeOf doe ≤ 400 by omega)
        have h400 : yearStart 400 = 146096 := by decide
        omega
    omega
  refine ⟨hle, hstart, ?_⟩
  rcases Nat.eq_or_lt_of_le hle with h399' | hlt399
  · have hv : yearStart (yoeOf doe) = 145731 := by
      rw [h399']
      decide
    omega
  · have hEnd : yoeOf (yearEnd (yoeOf doe)) = yoeOf doe :=
      (yearCheck_true (yoeOf doe) (by omega)).2
    have hEndVal : yearEnd (yoeOf doe) = yearStart (yoeOf doe + 1) - 1 := by
      unfold yearEnd
      cases hb : Nat.beq (yoeOf doe) 399 with
      | true =>
        have := Nat.eq_of_beq_eq_true hb
        omega
      | false => simp
    have hdoele : doe ≤ yearEnd (yoeOf doe) := by
      by_contra hcon
      push_neg at hcon
      have hS : yoeOf (yearStart (yoeOf doe + 1)) = yoeOf doe + 1 :=
        (yearCheck_true (yoeOf doe + 1) (by omega)).1
      have hm : yoeOf (yearStart (yoeOf doe + 1)) ≤ yoeOf doe := by
        rw [hEndVal] at hcon
        have hsle : yearStart (yoeOf doe + 1) ≤ doe := by
          have h0 : 1 ≤ yearStart (yoeOf doe + 1) := by
            have h1 := yearStart_mono (show 1 ≤ yoeOf doe + 1 by omega)
            have h2 : yearStart 1 = 365 := by decide
            omega
          omega
        exact yoeOf_mono hsle h
      omega
    have hsucc : yearStart (yoeOf doe + 1) ≤ yearStart (yoeOf doe) + 366 := by
      unfold yearStart
      omega
    rw [hEndVal] at hdoele
    omega

/-- Day of era (0 to 146096) of a day count relative to the epoch. -/
def doeOf (z : Int) : Nat := ((z + 719468) % 146097).toNat

/-- Era (400-year cycle index) of a day count relative to the epoch. -/
def eraOf (z : Int) : Int := (z + 719468) / 146097

/-- Day of year (March-based) of a day count. -/
def doyOf (z : Int) : Nat := doeOf z - yearStart (yoeOf (doeOf z))

/-- Shifted month index (0 = March, ..., 11 = February) of a day count. -/
def mpOf (z : Int) : Nat := (5 * doyOf z + 2) / 153

/-- Civil month (1 to 12) of a day count. -/
def monthOf (z : Int) : Nat := if mpOf z < 10 then mpOf z + 3 else mpOf z - 9

/-- Civil day of month (1 to 31) of a day count. -/
def dayOf (z : Int) : Nat := doyOf z - (153 * mpOf z + 2) / 5 + 1

/-- Civil year of a day count. -/
def yearOf (z : Int) : Int :=
  eraOf z * 400 + (yoeOf (doeOf z) : Int) + (if monthOf z ≤ 2 then 1 else 0)

/-- March-shifted year used when converting a civil date back to days. -/
def dfcYear (y : Int) (m : Nat) : Int := y - (if m ≤ 2 then 1 else 0)

/-- Era of a civil date. -/
def dfcEra (y : Int) (m : Nat) : Int := dfcYear y m / 400

/-- Year of era of a civil date. -/
def dfcYoe (y : Int) (m : Nat) : Nat := (dfcYear y m - dfcEra y m * 400).toNat

/-- March-based day of year of a civil date. -/
def dfcDoy (m d : Nat) : Nat := (153 * (if 2 < m then m - 3 else m + 9) + 2) / 5 + d - 1

/-- Convert a civil proleptic Gregorian date to a day count relative to
the epoch (1970-01-01). -/
def daysFromCivil (y : Int) (m d : Nat) : Int :=
  dfcEra y m * 146097 + ((yearStart (dfcYoe y m) + dfcDoy m d : Nat) : Int) - 719468

theorem doeOf_le (z : Int) : doeOf z ≤ 146096 := by
  unfold doeOf
  omega

theorem civilOf_inv (z : Int) :
    daysFromCivil (yearOf z) (monthOf z) (dayOf z) = z := by
  obtain ⟨hyle, hstart, hdoy⟩ := yoe_correct (doeOf z) (doeOf_le z)
  have hdoy365 : doyOf z ≤ 365 := by
    unfold doyOf
    omega
  have hmp_le : mpOf z ≤ 11 := by
    unfold mpOf
    omega
  have hdiv5 : (153 * mpOf z + 2) / 5 ≤ doyOf z := by
    unfold mpOf
    omega
  have hm_inv : (if 2 < monthOf z then monthOf z - 3 else monthOf z + 9) = mpOf z := by
    unfold monthOf
    by_cases hc : mpOf z < 10
    · rw [if_pos hc, if_pos (by omega)]
      omega
    · rw [if_neg hc, if_neg (by omega)]
      omega
  have hyearOf : dfcYear (yearOf z) (monthOf z) = eraOf z * 400 + (yoeOf (doeOf z) : Int) := by
    unfold dfcYear yearOf
    split <;> omega
  have hera400 : dfcEra (yearOf z) (monthOf z) = eraOf z := by
    unfold dfcEra
    rw [hyearOf]
    omega
  have hyoe400 : dfcYoe (yearOf z) (monthOf z) = yoeOf (doeOf z) := by
    unfold dfcYoe
    rw [hyearOf, hera400]
    omega
  have hdoy_inv : dfcDoy (monthOf z) (dayOf z) = doyOf z := by
    unfold dfcDoy
    rw [hm_inv]
    unfold dayOf
    omega
  unfold daysFromCivil
  rw [hera400, hyoe400, hdoy_inv]
  have hdoe : yearStart (yoeOf (doeOf z)) + doyOf z = doeOf z := by
    unfold doyOf
    omega
  rw [hdoe]
  unfold eraOf doeOf
  omega

/-- Bounds on the civil date of a bounded day count. -/
theorem civilOf_bounds (z : Int) (hz : -100000000 ≤ z ∧ z ≤ 100000000) :
    1 ≤ monthOf z ∧ monthOf z ≤ 12 ∧ 1 ≤ dayOf z ∧ dayOf z ≤ 31 ∧
    -999999 ≤ yearOf z ∧ yearOf z ≤ 999999 := by
  obtain ⟨hyle, hstart, hdoy⟩ := yoe_correct (doeOf z) (doeOf_le z)
  have hdoy365 : doyOf z ≤ 365 := by
    unfold doyOf
    omega
  have hmp_le : mpOf z ≤ 11 := by
    unfold mpOf
    omega
  have hdiv5 : (153 * mpOf z + 2) / 5 ≤ doyOf z := by
    unfold mpOf
    omega
  have hd31 : dayOf z ≤ 31 := by
    unfold dayOf mpOf
    omega
  have hd1 : 1 ≤ dayOf z := by
    unfold dayOf
    omega
  have hm : 1 ≤ monthOf z ∧ monthOf z ≤ 12 := by
    unfold monthOf
    split <;> omega
  have hera_bounds : -680 ≤ eraOf z ∧ eraOf z ≤ 689 := by
    unfold eraOf
    omega
  have hy : -999999 ≤ yearOf z ∧ yearOf z ≤ 999999 := by
    unfold yearOf
    split <;> omega
  exact ⟨hm.1, hm.2, hd1, hd31, hy.1, hy.2⟩
/-! ## Decimal digit rendering and parsing -/

/-- Character for a single decimal digit. -/
def digitChar (d : Nat) : Char := Char.ofNat (48 + d)

/-- Zero-padded fixed-width decimal rendering, most significant first. -/
def padDigits : Nat → Nat → List Char
  | 0, _ => []
  | w + 1, n => digitChar (n / 10 ^ w) :: padDigits w (n % 10 ^ w)

/-- Read exactly the given number of decimal digits, accumulating a value. -/
def readDigits : Nat → Nat → List Char → Option (Nat × List Char)
  | 0, acc, cs => some (acc, cs)
  | _ + 1, _, [] => none
  | w + 1, acc, c :: cs =>
    if c.isDigit then readDigits w (acc * 10 + (c.toNat - 48)) cs else none

theorem digitChar_isDigit (d : Nat) (h : d ≤ 9) : (digitChar d).isDigit = true := by
  interval_cases d <;> decide

theorem digitChar_toNat (d : Nat) (h : d ≤ 9) : (digitChar d).toNat = 48 + d := by
  interval_cases d <;> decide

theorem digitChar_ne_plus (d : Nat) (h : d ≤ 9) : ¬ digitChar d = '+' := by
  interval_cases d <;> decide

theorem digitChar_ne_minus (d : Nat) (h : d ≤ 9) : ¬ digitChar d = '-' := by
  interval_cases d <;> decide

theorem readDigits_pad (w : Nat) : ∀ acc n rest, n < 10 ^ w →
    readDigits w acc (padDigits w n ++ rest) = some (acc * 10 ^ w + n, rest) := by
  induction w with
  | zero =>
    intro acc n rest h
    have hn : n = 0 := by
      have h1 : (10 : Nat) ^ 0 = 1 := rfl
      omega
    subst hn
    simp [padDigits, readDigits]
  | succ w ih =>
    intro acc n rest h
    have hP : (10 : Nat) ^ (w + 1) = 10 ^ w * 10 := pow_succ 10 w
    have hPpos : 0 < (10 : Nat) ^ w := Nat.pos_pow_of_pos w (by omega)
    have hd9 : n / 10 ^ w ≤ 9 := by
      have h1 : n / 10 ^ w < 10 := Nat.div_lt_of_lt_mul (by omega)
      omega
    have hpad : padDigits (w + 1) n = digitChar (n / 10 ^ w) :: padDigits w (n % 10 ^ w) := rfl
    rw [hpad]
    have hstep : readDigits (w + 1) acc
        (digitChar (n / 10 ^ w) :: (padDigits w (n % 10 ^ w) ++ rest))
        = if (digitChar (n / 10 ^ w)).isDigit then
            readDigits w (acc * 10 + ((digitChar (n / 10 ^ w)).toNat - 48))
              (padDigits w (n % 10 ^ w) ++ rest)
          else none := rfl
    simp only [List.cons_append, hstep, digitChar_isDigit _ hd9, if_true,
      digitChar_toNat _ hd9]
    simp only [Nat.add_sub_cancel_left]
    rw [ih _ _ rest (Nat.mod_lt _ hPpos)]
    congr 2
    have hqr : 10 ^ w * (n / 10 ^ w) + n % 10 ^ w = n := Nat.div_add_mod n (10 ^ w)
    have hexp : (acc * 10 + n / 10 ^ w) * 10 ^ w + n % 10 ^ w
        = acc * (10 ^ w * 10) + (10 ^ w * (n / 10 ^ w) + n % 10 ^ w) := by ring
    rw [hexp, hqr, hP]

/-! ## ISO-8601 timestamp rendering and parsing

Date.prototype.toISOString renders the epoch offset in the format
YYYY-MM-DDTHH:mm:ss.sssZ, with the year expanded to a signed six-digit
form outside 0-9999.  The Date constructor parses this format back; the
parser below models the subset of the ECMAScript date-time string grammar
that toISOString emits.
-/

/-- Render the year field: four digits for 0-9999, otherwise a sign and
six digits (the ECMAScript expanded year format). -/
def renderYear (y : Int) : List Char :=
  if 0 ≤ y ∧ y ≤ 9999 then padDigits 4 y.toNat
  else if y < 0 then '-' :: padDigits 6 (-y).toNat
  else '+' :: padDigits 6 y.toNat

/-- Model of Date.prototype.toISOString as a character list. -/
def toISOChars (t : Int) : List Char :=
  renderYear (yearOf (t / 86400000)) ++
    ('-' :: (padDigits 2 (monthOf (t / 86400000)) ++
      ('-' :: (padDigits 2 (dayOf (t / 86400000)) ++
        ('T' :: (padDigits 2 ((t % 86400000).toNat / 3600000) ++
          (':' :: (padDigits 2 ((t % 86400000).toNat / 60000 % 60) ++
            (':' :: (padDigits 2 ((t % 86400000).toNat / 1000 % 60) ++
              ('.' :: (padDigits 3 ((t % 86400000).toNat % 1000) ++ ['Z']))))))))))))

/-- Model of Date.prototype.toISOString. -/
def toISOString (t : Int) : String := String.mk (toISOChars t)

/-- Consume one expected character. -/
def expectChar (c : Char) : List Char → Option (List Char)
  | [] => none
  | x :: xs => if x = c then some xs else none

/-- Year parsing after the first character has been examined. -/
def parseYearCons (c : Char) (rest : List Char) : Option (Int × List Char) :=
  if c = '+' then (readDigits 6 0 rest).map (fun p => ((p.1 : Int), p.2))
  else if c = '-' then (readDigits 6 0 rest).map (fun p => (-(p.1 : Int), p.2))
  else (readDigits 4 0 (c :: rest)).map (fun p => ((p.1 : Int), p.2))

/-- Parse the year field: a sign with six digits, or four digits. -/
def parseYear : List Char → Option (Int × List Char)
  | [] => none
  | c :: rest => parseYearCons c rest

/-- Final step of ISO parsing: field range validation and recomposition. -/
def parseFinish (y : Int) (mo dy hh mi ss msv : Nat) : List Char → Option Int
  | [] =>
    if 1 ≤ mo ∧ mo ≤ 12 ∧ 1 ≤ dy ∧ dy ≤ 31 ∧ hh ≤ 23 ∧ mi ≤ 59 ∧ ss ≤ 59 then
      some (daysFromCivil y mo dy * 86400000
        + ((((hh * 60 + mi) * 60 + ss) * 1000 + msv : Nat) : Int))
    else none
  | _ :: _ => none

/-- Parser continuation after the millisecond field and final Z. -/
def isoAfterZ (y : Int) (mo dy hh mi ss msv : Nat) : Option (List Char) → Option Int
  | none => none
  | some cs => parseFinish y mo dy hh mi ss msv cs

/-- Parser continuation after reading the millisecond digits. -/
def isoAfterMsv (y : Int) (mo dy hh mi ss : Nat) : Option (Nat × List Char) → Option Int
  | none => none
  | some p => isoAfterZ y mo dy hh mi ss p.1 (expectChar 'Z' p.2)

/-- Parser continuation after the dot separator. -/
def isoAfterDot (y : Int) (mo dy hh mi ss : Nat) : Option (List Char) → Option Int
  | none => none
  | some cs => isoAfterMsv y mo dy hh mi ss (readDigits 3 0 cs)

/-- Parser continuation after reading the second digits. -/
def isoAfterSs (y : Int) (mo dy hh mi : Nat) : Option (Nat × List Char) → Option Int
  | none => none
  | some p => isoAfterDot y mo dy hh mi p.1 (expectChar '.' p.2)

/-- Parser continuation after the second colon separator. -/
def isoAfterColon2 (y : Int) (mo dy hh mi : Nat) : Option (List Char) → Option Int
  | none => none
  | some cs => isoAfterSs y mo dy hh mi (readDigits 2 0 cs)

/-- Parser continuation after reading the minute digits. -/
def isoAfterMi (y : Int) (mo dy hh : Nat) : Option (Nat × List Char) → Option Int
  | none => none
  | some p => isoAfterColon2 y mo dy hh p.1 (expectChar ':' p.2)

/-- Parser continuation after the first colon separator. -/
def isoAfterColon1 (y : Int) (mo dy hh : Nat) : Option (List Char) → Option Int
  | none => none
  | some cs => isoAfterMi y mo dy hh (readDigits 2 0 cs)

/-- Parser continuation after reading the hour digits. -/
def isoAfterHh (y : Int) (mo dy : Nat) : Option (Nat × List Char) → Option Int
  | none => none
  | some p => isoAfterColon1 y mo dy p.1 (expectChar ':' p.2)

/-- Parser continuation after the T separator. -/
def isoAfterT (y : Int) (mo dy : Nat) : Option (List Char) → Option Int
  | none => none
  | some cs => isoAfterHh y mo dy (readDigits 2 0 cs)

/-- Parser continuation after reading the day digits. -/
def isoAfterDy (y : Int) (mo : Nat) : Option (Nat × List Char) → Option Int
  | none => none
  | some p => isoAfterT y mo p.1 (expectChar 'T' p.2)

/-- Parser continuation after the second dash separator. -/
def isoAfterDash2 (y : Int) (mo : Nat) : Option (List Char) → Option Int
  | none => none
  | some cs => isoAfterDy y mo (readDigits 2 0 cs)

/-- Parser continuation after reading the month digits. -/
def isoAfterMo (y : Int) : Option (Nat × List Char) → Option Int
  | none => none
  | some p => isoAfterDash2 y p.1 (expectChar '-' p.2)

/-- Parser continuation after the first dash separator. -/
def isoAfterDash1 (y : Int) : Option (List Char) → Option Int
  | none => none
  | some cs => isoAfterMo y (readDigits 2 0 cs)

/-- Parser continuation after reading the year field. -/
def isoAfterYear : Option (Int × List Char) → Option Int
  | none => none
  | some p => isoAfterDash1 p.1 (expectChar '-' p.2)

/-- Model of parsing an ISO-8601 timestamp with the Date constructor
(the subset of the ECMAScript date-time string grammar that
toISOString emits); none models an invalid Date. -/
def parseISOChars (cs : List Char) : Option Int := isoAfterYear (parseYear cs)

/-- Model of new Date(string) restricted to the ISO format. -/
def parseISO (s : String) : Option Int := parseISOChars s.data

theorem parseYear_cons (c : Char) (rest : List Char) :
    parseYear (c :: rest) = parseYearCons c rest := rfl

theorem parseYear_render (y : Int) (hb : -999999 ≤ y ∧ y ≤ 999999) (rest : List Char) :
    parseYear (renderYear y ++ rest) = some (y, rest) := by
  unfold renderYear
  by_cases h4 : 0 ≤ y ∧ y ≤ 9999
  · rw [if_pos h4]
    have hlt : y.toNat < 10 ^ 4 := by omega
    have hd9 : y.toNat / 10 ^ 3 ≤ 9 := by omega
    have hpad : padDigits 4 y.toNat ++ rest
        = digitChar (y.toNat / 10 ^ 3) :: (padDigits 3 (y.toNat % 10 ^ 3) ++ rest) := rfl
    rw [hpad, parseYear_cons]
    unfold parseYearCons
    rw [if_neg (digitChar_ne_plus _ hd9), if_neg (digitChar_ne_minus _ hd9), ← hpad]
    rw [readDigits_pad 4 0 y.toNat rest hlt]
    simp only [Option.map_some']
    congr 2
    · omega
  · rw [if_neg h4]
    by_cases hneg : y < 0
    · rw [if_pos hneg]
      rw [show ('-' :: padDigits 6 (-y).toNat) ++ rest
          = '-' :: (padDigits 6 (-y).toNat ++ rest) from rfl]
      rw [parseYear_cons]
      unfold parseYearCons
      rw [if_neg (show ¬('-' : Char) = '+' by decide), if_pos rfl]
      rw [readDigits_pad 6 0 (-y).toNat rest (by omega)]
      simp only [Option.map_some']
      congr 2
      · omega
    · rw [if_neg hneg]
      rw [show ('+' :: padDigits 6 y.toNat) ++ rest
          = '+' :: (padDigits 6 y.toNat ++ rest) from rfl]
      rw [parseYear_cons]
      unfold parseYearCons
      rw [if_pos rfl]
      rw [readDigits_pad 6 0 y.toNat rest (by omega)]
      simp only [Option.map_some']
      congr 2
      · omega

theorem expectChar_cons (c : Char) (rest : List Char) :
    expectChar c (c :: rest) = some rest := by
  simp [expectChar]

theorem readDigits2_pad (k : Nat) (rest : List Char) (hk : k < 100) :
    readDigits 2 0 (padDigits 2 k ++ rest) = some (k, rest) := by
  have := readDigits_pad 2 0 k rest (by omega)
  simpa using this

theorem readDigits3_pad (k : Nat) (rest : List Char) (hk : k < 1000) :
    readDigits 3 0 (padDigits 3 k ++ rest) = some (k, rest) := by
  have := readDigits_pad 3 0 k rest (by omega)
  simpa using this

theorem parseFinish_nil (y : Int) (mo dy hh mi ss msv : Nat) :
    parseFinish y mo dy hh mi ss msv []
      = if 1 ≤ mo ∧ mo ≤ 12 ∧ 1 ≤ dy ∧ dy ≤ 31 ∧ hh ≤ 23 ∧ mi ≤ 59 ∧ ss ≤ 59 then
          some (daysFromCivil y mo dy * 86400000
            + ((((hh * 60 + mi) * 60 + ss) * 1000 + msv : Nat) : Int))
        else none := rfl

/-- Parsing a fully rendered timestamp string reaches the validation step
with exactly the rendered field values. -/
theorem parseISOChars_render (y : Int) (mo dy hh mi ss msv : Nat)
    (hy : -999999 ≤ y ∧ y ≤ 999999) (hmo : mo < 100) (hdy : dy < 100)
    (hhh : hh < 100) (hmi : mi < 100) (hss : ss < 100) (hmsv : msv < 1000) :
    parseISOChars (renderYear y ++
      ('-' :: (padDigits 2 mo ++
        ('-' :: (padDigits 2 dy ++
          ('T' :: (padDigits 2 hh ++
            (':' :: (padDigits 2 mi ++
              (':' :: (padDigits 2 ss ++
                ('.' :: (padDigits 3 msv ++ ['Z'])))))))))))))
      = parseFinish y mo dy hh mi ss msv [] := by
  unfold parseISOChars
  rw [parseYear_render _ hy]
  rw [show ∀ p : Int × List Char, isoAfterYear (some p)
      = isoAfterDash1 p.1 (expectChar '-' p.2) from fun _ => rfl]
  rw [expectChar_cons]
  rw [show ∀ cs, isoAfterDash1 y (some cs) = isoAfterMo y (readDigits 2 0 cs)
    from fun _ => rfl]
  rw [readDigits2_pad _ _ hmo]
  rw [show ∀ p : Nat × List Char, isoAfterMo y (some p)
      = isoAfterDash2 y p.1 (expectChar '-' p.2) from fun _ => rfl]
  rw [expectChar_cons]
  rw [show ∀ cs, isoAfterDash2 y mo (some cs) = isoAfterDy y mo (readDigits 2 0 cs)
    from fun _ => rfl]
  rw [readDigits2_pad _ _ hdy]
  rw [show ∀ p : Nat × List Char, isoAfterDy y mo (some p)
      = isoAfterT y mo p.1 (expectChar 'T' p.2) from fun _ => rfl]
  rw [expectChar_cons]
  rw [show ∀ cs, isoAfterT y mo dy (some cs) = isoAfterHh y mo dy (readDigits 2 0 cs)
    from fun _ => rfl]
  rw [readDigits2_pad _ _ hhh]
  rw [show ∀ p : Nat × List Char, isoAfterHh y mo dy (some p)
      = isoAfterColon1 y mo dy p.1 (expectChar ':' p.2) from fun _ => rfl]
  rw [expectChar_cons]
  rw [show ∀ cs, isoAfterColon1 y mo dy hh (some cs)
      = isoAfterMi y mo dy hh (readDigits 2 0 cs) from fun _ => rfl]
  rw [readDigits2_pad _ _ hmi]
  rw [show ∀ p : Nat × List Char, isoAfterMi y mo dy hh (some p)
      = isoAfterColon2 y mo dy hh p.1 (expectChar ':' p.2) from fun _ => rfl]
  rw [expectChar_cons]
  rw [show ∀ cs, isoAfterColon2 y mo dy hh mi (some cs)
      = isoAfterSs y mo dy hh mi (readDigits 2 0 cs) from fun _ => rfl]
  rw [readDigits2_pad _ _ hss]
  rw [show ∀ p : Nat × List Char, isoAfterSs y mo dy hh mi (some p)
      = isoAfterDot y mo dy hh mi p.1 (expectChar '.' p.2) from fun _ => rfl]
  rw [expectChar_cons]
  rw [show ∀ cs, isoAfterDot y mo dy hh mi ss (some cs)
      = isoAfterMsv y mo dy hh mi ss (readDigits 3 0 cs) from fun _ => rfl]
  rw [readDigits3_pad _ _ hmsv]
  rw [show ∀ p : Nat × List Char, isoAfterMsv y mo dy hh mi ss (some p)
      = isoAfterZ y mo dy hh mi ss p.1 (expectChar 'Z' p.2) from fun _ => rfl]
  rw [expectChar_cons]
  rw [show ∀ cs, isoAfterZ y mo dy hh mi ss msv (some cs)
      = parseFinish y mo dy hh mi ss msv cs from fun _ => rfl]

/-- The ISO rendering of a valid Date parses back to exactly the same
millisecond timestamp. -/
theorem parseISOChars_toISOChars (t : Int) (h : validDate t) :
    parseISOChars (toISOChars t) = some t := by
  obtain ⟨hlo, hhi⟩ := h
  have hz : -100000000 ≤ t / 86400000 ∧ t / 86400000 ≤ 100000000 := by omega
  obtain ⟨hm1, hm12, hd1, hd31, hy1, hy2⟩ := civilOf_bounds (t / 86400000) hz
  have hms : (t % 86400000).toNat < 86400000 := by omega
  unfold toISOChars
  rw [parseISOChars_render _ _ _ _ _ _ _ ⟨hy1, hy2⟩ (by omega) (by omega) (by omega)
    (by omega) (by omega) (by omega)]
  rw [parseFinish_nil,
    if_pos ⟨hm1, hm12, hd1, hd31, by omega, by omega, by omega⟩,
    civilOf_inv]
  simp only [Option.some.injEq]
  omega

/-! ## Recipe serialization (Redis backend)

serializeRecipe builds the JSON value of the recipe with createdAt
replaced by its ISO string (Date.prototype.toISOString);
deserializeRecipe parses it back and rebuilds the Date.  The JSON text
layer between this value and its persisted text form is JSON.stringify
and JSON.parse, a standard inverse pair that is not re-modelled; the
structured value below is the content of that JSON object.  A createdAt
string that does not parse would produce an invalid Date, modelled as
none.
-/

/-- The persisted form of a recipe: every field verbatim, the creation
timestamp as an ISO-8601 string. -/
structure StoredRecipe where
  id : String
  name : String
  cookingTime : Option String
  ingredients : List String
  instructions : List String
  originalLanguage : Lang
  youtubeUrl : String
  transcript : String
  createdAt : String
deriving DecidableEq, Repr

/-- Model of RecipeStorage.serializeRecipe (storage.ts, Redis backend). -/
def serializeRecipe (r : Recipe) : StoredRecipe :=
  { id := r.id
    name := r.name
    cookingTime := r.cookingTime
    ingredients := r.ingredients
    instructions := r.instructions
    originalLanguage := r.originalLanguage
    youtubeUrl := r.youtubeUrl
    transcript := r.transcript
    createdAt := toISOString r.createdAt }

/-- Model of RecipeStorage.deserializeRecipe (storage.ts, Redis backend). -/
def deserializeRecipe (s : StoredRecipe) : Option Recipe :=
  (parseISO s.createdAt).map fun t =>
    { id := s.id
      name := s.name
      cookingTime := s.cookingTime
      ingredients := s.ingredients
      instructions := s.instructions
      originalLanguage := s.originalLanguage
      youtubeUrl := s.youtubeUrl
      transcript := s.transcript
      createdAt := t }

/-- C3: deserializing the serialized text encoding of a recipe record
yields a record equal to the original in every field, including the
creation timestamp at exact millisecond equality. -/
theorem C3_serialize_roundtrip (r : Recipe) (h : validDate r.createdAt) :
    deserializeRecipe (serializeRecipe r) = some r := by
  unfold deserializeRecipe serializeRecipe parseISO toISOString
  rw [show (String.mk (toISOChars r.createdAt)).data = toISOChars r.createdAt from rfl]
  rw [parseISOChars_toISOChars _ h]
  rfl

/-- Sample recipe used by concrete witnesses. -/
def sampleRecipe : Recipe :=
  { id := "recipe_1700000000000_abc123def"
    name := "Борщ"
    cookingTime := some "30 minutes"
    ingredients := ["свекла", "томат"]
    instructions := ["Варить 30 минут"]
    originalLanguage := Lang.ru
    youtubeUrl := "https://youtu.be/dQw4w9WgXcQ"
    transcript := "транскрипт видео"
    createdAt := 1700000000000 }

/-- Witness for C3 at a concrete recipe. -/
theorem C3_serialize_roundtrip_witness :
    validDate sampleRecipe.createdAt ∧
      deserializeRecipe (serializeRecipe sampleRecipe) = some sampleRecipe :=
  ⟨by decide, C3_serialize_roundtrip sampleRecipe (by decide)⟩

/-! ## The stable sort used by every collection read

Both backends sort query results with Array.prototype.sort and the
comparator (a, b) => b.createdAt.getTime() - a.createdAt.getTime(),
a stable descending sort by creation time.  Every stable sort with this
comparator produces the same list, so it is modelled by stable insertion
sort. -/

/-- Insert a recipe into a descending-sorted list, before any element of
equal creation time (the element being inserted comes earlier in the
original array, so stability puts it first). -/
def insertDesc (r : Recipe) : List Recipe → List Recipe
  | [] => [r]
  | x :: xs => if x.createdAt ≤ r.createdAt then r :: x :: xs else x :: insertDesc r xs

/-- Model of the stable descending-by-createdAt JavaScript sort. -/
def jsSortDesc (l : List Recipe) : List Recipe := l.foldr insertDesc []

/-- The list is sorted by creation time, newest first. -/
def sortedDesc (l : List Recipe) : Prop :=
  l.Pairwise (fun a b => b.createdAt ≤ a.createdAt)

theorem mem_insertDesc (a r : Recipe) : ∀ l, a ∈ insertDesc r l ↔ a = r ∨ a ∈ l := by
  intro l
  induction l with
  | nil => simp [insertDesc]
  | cons x xs ih =>
    unfold insertDesc
    split
    · simp
    · simp only [List.mem_cons, ih]
      tauto

theorem mem_jsSortDesc (a : Recipe) : ∀ l, a ∈ jsSortDesc l ↔ a ∈ l := by
  intro l
  induction l with
  | nil => simp [jsSortDesc]
  | cons x xs ih =>
    show a ∈ insertDesc x (jsSortDesc xs) ↔ _
    rw [mem_insertDesc]
    simp only [List.mem_cons]
    rw [ih]

theorem insertDesc_sorted (r : Recipe) : ∀ l, sortedDesc l → sortedDesc (insertDesc r l) := by
  intro l
  induction l with
  | nil =>
    intro _
    simp [insertDesc, sortedDesc]
  | cons x xs ih =>
    intro h
    rw [sortedDesc, List.pairwise_cons] at h
    unfold insertDesc
    split
    · rename_i hle
      rw [sortedDesc, List.pairwise_cons]
      constructor
      · intro b hb
        rcases List.mem_cons.mp hb with hbx | hbxs
        · subst hbx
          exact hle
        · exact le_trans (h.1 b hbxs) hle
      · rw [sortedDesc] at *
        exact List.Pairwise.cons h.1 h.2
    · rename_i hgt
      rw [sortedDesc, List.pairwise_cons]
      constructor
      · intro b hb
        rcases (mem_insertDesc b r xs).mp hb with hbr | hbxs
        · subst hbr
          omega
        · exact h.1 b hbxs
      · exact ih h.2

theorem jsSortDesc_sorted (l : List Recipe) : sortedDesc (jsSortDesc l) := by
  induction l with
  | nil => simp [jsSortDesc, sortedDesc]
  | cons x xs ih => exact insertDesc_sorted x _ ih

theorem insertDesc_eq_cons (r : Recipe) (l : List Recipe)
    (h : ∀ b ∈ l, b.createdAt ≤ r.createdAt) : insertDesc r l = r :: l := by
  cases l with
  | nil => rfl
  | cons x xs =>
    unfold insertDesc
    rw [if_pos (h x (List.mem_cons_self x xs))]

theorem jsSortDesc_of_sorted : ∀ l, sortedDesc l → jsSortDesc l = l := by
  intro l
  induction l with
  | nil => intro _; rfl
  | cons x xs ih =>
    intro h
    rw [sortedDesc, List.pairwise_cons] at h
    show insertDesc x (jsSortDesc xs) = x :: xs
    rw [ih h.2]
    exact insertDesc_eq_cons x xs h.1

theorem jsSortDesc_idem (l : List Recipe) : jsSortDesc (jsSortDesc l) = jsSortDesc l :=
  jsSortDesc_of_sorted _ (jsSortDesc_sorted l)

theorem insertDesc_cons (r x : Recipe) (xs : List Recipe) :
    insertDesc r (x :: xs)
      = if x.createdAt ≤ r.createdAt then r :: x :: xs else x :: insertDesc r xs := rfl

theorem filter_insertDesc (p : Recipe → Bool) (r : Recipe) : ∀ l, sortedDesc l →
    (insertDesc r l).filter p
      = if p r then insertDesc r (l.filter p) else l.filter p := by
  intro l
  induction l with
  | nil =>
    intro _
    cases hpr : p r <;> simp [insertDesc, List.filter, hpr]
  | cons x xs ih =>
    intro h
    rw [sortedDesc, List.pairwise_cons] at h
    have hfx : ∀ b ∈ List.filter p xs, b.createdAt ≤ x.createdAt :=
      fun b hb => h.1 b (List.mem_of_mem_filter hb)
    rw [insertDesc_cons]
    by_cases hle : x.createdAt ≤ r.createdAt
    · rw [if_pos hle]
      cases hpr : p r with
      | true =>
        cases hpx : p x with
        | true =>
          simp only [List.filter_cons, hpr, hpx, if_true]
          rw [insertDesc_cons, if_pos hle]
        | false =>
          simp only [List.filter_cons, hpr, hpx, if_true, Bool.false_eq_true, if_false]
          rw [insertDesc_eq_cons r (List.filter p xs)
            (fun b hb => le_trans (hfx b hb) hle)]
      | false =>
        cases hpx : p x with
        | true =>
          simp only [List.filter_cons, hpr, hpx, if_true, Bool.false_eq_true, if_false]
        | false =>
          simp only [List.filter_cons, hpr, hpx, Bool.false_eq_true, if_false]
    · rw [if_neg hle]
      cases hpr : p r with
      | true =>
        cases hpx : p x with
        | true =>
          simp only [List.filter_cons, hpr, hpx, if_true, ih h.2]
          rw [insertDesc_cons, if_neg hle]
        | false =>
          simp only [List.filter_cons, hpr, hpx, if_true, Bool.false_eq_true, if_false, ih h.2]
      | false =>
        cases hpx : p x with
        | true =>
          simp only [List.filter_cons, hpr, hpx, if_true, Bool.false_eq_true, if_false, ih h.2]
        | false =>
          simp only [List.filter_cons, hpr, hpx, Bool.false_eq_true, if_false, ih h.2]

theorem filter_jsSortDesc (p : Recipe → Bool) : ∀ l,
    (jsSortDesc l).filter p = jsSortDesc (l.filter p) := by
  intro l
  induction l with
  | nil => rfl
  | cons x xs ih =>
    show (insertDesc x (jsSortDesc xs)).filter p = jsSortDesc (List.filter p (x :: xs))
    rw [filter_insertDesc p x _ (jsSortDesc_sorted xs), ih, List.filter_cons]
    by_cases hpx : p x
    · rw [if_pos hpx, if_pos hpx]
      rfl
    · rw [if_neg hpx, if_neg hpx]

/-! ## In-memory RecipeStorage (storage.ts, first class)

The JavaScript Map is modelled as a list of recipes in key insertion
order with pairwise distinct ids (a Map holds one entry per key);
Map.prototype.set on an existing key replaces the value in place, and
Map.prototype.delete removes the one entry with that key, modelled by
filtering under the distinct-ids invariant. -/

/-- Model of the in-memory RecipeStorage.add. -/
def memAdd (r : Recipe) (st : List Recipe) : List Recipe :=
  if st.any (fun x => x.id == r.id) then
    st.map (fun x => if x.id == r.id then r else x)
  else st ++ [r]

/-- Model of the in-memory RecipeStorage.getById. -/
def memGetById (id : String) (st : List Recipe) : Option Recipe :=
  st.find? (fun x => x.id == id)

/-- Model of the in-memory RecipeStorage.getAll. -/
def memGetAll (st : List Recipe) : List Recipe := jsSortDesc st

/-- The search filter of RecipeStorage.search: case-insensitive
substring match on the name, or (when searchInIngredients is set, its
default) on some ingredient. -/
def matchesQuery (q : String) (searchInIngredients : Bool) (r : Recipe) : Bool :=
  containsSub (jsToLower q) (jsToLower r.name)
    || (searchInIngredients
        && r.ingredients.any (fun ing => containsSub (jsToLower q) (jsToLower ing)))

/-- Model of the in-memory RecipeStorage.search. -/
def memSearch (q : String) (searchInIngredients : Bool) (st : List Recipe) : List Recipe :=
  jsSortDesc (st.filter (matchesQuery q searchInIngredients))

/-- Model of the in-memory RecipeStorage.delete: returns the new state
and whether a record existed. -/
def memDelete (id : String) (st : List Recipe) : List Recipe × Bool :=
  if st.any (fun x => x.id == id) then (st.filter (fun x => !(x.id == id)), true)
  else (st, false)

/-- Model of the in-memory RecipeStorage.clear. -/
def memClear : List Recipe := []

/-- Model of the in-memory RecipeStorage.count. -/
def memCount (st : List Recipe) : Nat := st.length

/-- Model of the in-memory RecipeStorage.exists. -/
def memExists (id : String) (st : List Recipe) : Bool :=
  st.any (fun x => x.id == id)

/-- Model of the in-memory RecipeStorage.getByLanguage. -/
def memGetByLanguage (lang : Lang) (st : List Recipe) : List Recipe :=
  jsSortDesc (st.filter (fun r => r.originalLanguage == lang))

/-- Model of the in-memory RecipeStorage.getAfterDate. -/
def memGetAfterDate (dt : Int) (st : List Recipe) : List Recipe :=
  jsSortDesc (st.filter (fun r => decide (dt < r.createdAt)))

/-- Model of the in-memory RecipeStorage.getBeforeDate. -/
def memGetBeforeDate (dt : Int) (st : List Recipe) : List Recipe :=
  jsSortDesc (st.filter (fun r => decide (r.createdAt < dt)))

/-! ## Redis-backed RecipeStorage (storage.ts, second class)

The external Redis instance is modelled by a string-keyed table of
stored records plus the recipe:index set.  Redis sets up to 128 members
are listpack-encoded and enumerate in insertion order, and sadd of an
existing member keeps its position, so the index set is modelled as an
insertion-ordered duplicate-free list.  mget preserves argument order
and yields null for absent keys. -/

/-- The recipe: key namespace prefixing of the Redis backend. -/
def recipeKey (id : String) : String := "recipe:" ++ id

/-- State of the modelled Redis instance. -/
structure RedisState where
  kv : List (String × StoredRecipe)
  index : List String
deriving DecidableEq, Repr

/-- Redis GET on the modelled table. -/
def kvGet (k : String) (kv : List (String × StoredRecipe)) : Option StoredRecipe :=
  (kv.find? (fun p => p.1 == k)).map Prod.snd

/-- Redis SET on the modelled table. -/
def kvSet (k : String) (v : StoredRecipe) (kv : List (String × StoredRecipe)) :
    List (String × StoredRecipe) :=
  if kv.any (fun p => p.1 == k) then kv.map (fun p => if p.1 == k then (k, v) else p)
  else kv ++ [(k, v)]

/-- Redis DEL of one key on the modelled table. -/
def kvDel (k : String) (kv : List (String × StoredRecipe)) :
    List (String × StoredRecipe) :=
  kv.filter (fun p => !(p.1 == k))

/-- Redis SADD on the modelled index set. -/
def saddModel (x : String) (s : List String) : List String :=
  if x ∈ s then s else s ++ [x]

/-- Redis SREM on the modelled index set. -/
def sremModel (x : String) (s : List String) : List String :=
  s.filter (fun y => !(y == x))

/-- Model of the Redis-backed RecipeStorage.add: SET the serialized
record, then SADD its id to the index. -/
def redisAdd (r : Recipe) (st : RedisState) : RedisState :=
  { kv := kvSet (recipeKey r.id) (serializeRecipe r) st.kv
    index := saddModel r.id st.index }

/-- Model of the Redis-backed RecipeStorage.getById. -/
def redisGetById (id : String) (st : RedisState) : Option Recipe :=
  match kvGet (recipeKey id) st.kv with
  | none => none
  | some s => deserializeRecipe s

/-- Model of the Redis-backed RecipeStorage.getAll: SMEMBERS the index,
MGET the keys, skip absent entries, deserialize, sort. -/
def redisGetAll (st : RedisState) : List Recipe :=
  jsSortDesc ((st.index.filterMap
    (fun id => kvGet (recipeKey id) st.kv)).filterMap deserializeRecipe)

/-- Model of the Redis-backed RecipeStorage.search: getAll, filter,
sort again. -/
def redisSearch (q : String) (searchInIngredients : Bool) (st : RedisState) : List Recipe :=
  jsSortDesc ((redisGetAll st).filter (matchesQuery q searchInIngredients))

/-- Model of the Redis-backed RecipeStorage.delete. -/
def redisDelete (id : String) (st : RedisState) : RedisState × Bool :=
  if (kvGet (recipeKey id) st.kv).isSome then
    ({ kv := kvDel (recipeKey id) st.kv, index := sremModel id st.index }, true)
  else (st, false)

/-- Model of the Redis-backed RecipeStorage.clear: DEL every key listed
in the index, then DEL the index. -/
def redisClear (st : RedisState) : RedisState :=
  { kv := st.kv.filter (fun p => !(st.index.any (fun id => recipeKey id == p.1)))
    index := [] }

/-- Model of the Redis-backed RecipeStorage.count (SCARD of the index). -/
def redisCount (st : RedisState) : Nat := st.index.length

/-- Model of the Redis-backed RecipeStorage.exists. -/
def redisExists (id : String) (st : RedisState) : Bool :=
  (kvGet (recipeKey id) st.kv).isSome

/-- Model of the Redis-backed RecipeStorage.getByLanguage. -/
def redisGetByLanguage (lang : Lang) (st : RedisState) : List Recipe :=
  jsSortDesc ((redisGetAll st).filter (fun r => r.originalLanguage == lang))

/-- Model of the Redis-backed RecipeStorage.getAfterDate. -/
def redisGetAfterDate (dt : Int) (st : RedisState) : List Recipe :=
  jsSortDesc ((redisGetAll st).filter (fun r => decide (dt < r.createdAt)))

/-- Model of the Redis-backed RecipeStorage.getBeforeDate. -/
def redisGetBeforeDate (dt : Int) (st : RedisState) : List Recipe :=
  jsSortDesc ((redisGetAll st).filter (fun r => decide (r.createdAt < dt)))

/-! ## Observational equivalence of the two backends -/

/-- One operation of the storage interface. -/
inductive StoreOp where
  | add (r : Recipe)
  | getById (id : String)
  | getAll
  | search (q : String) (searchInIngredients : Bool)
  | del (id : String)
  | clear
  | count
  | existsOp (id : String)
  | getByLanguage (lang : Lang)
  | getAfterDate (dt : Int)
  | getBeforeDate (dt : Int)
deriving DecidableEq, Repr

/-- Observable result of one storage operation. -/
inductive StoreOut where
  | recList (l : List Recipe)
  | recOpt (o : Option Recipe)
  | flag (b : Bool)
  | num (n : Nat)
  | done
deriving DecidableEq, Repr

/-- One step of the in-memory backend. -/
def memStep (st : List Recipe) : StoreOp → List Recipe × StoreOut
  | .add r => (memAdd r st, .done)
  | .getById id => (st, .recOpt (memGetById id st))
  | .getAll => (st, .recList (memGetAll st))
  | .search q sii => (st, .recList (memSearch q sii st))
  | .del id => ((memDelete id st).1, .flag (memDelete id st).2)
  | .clear => (memClear, .done)
  | .count => (st, .num (memCount st))
  | .existsOp id => (st, .flag (memExists id st))
  | .getByLanguage l => (st, .recList (memGetByLanguage l st))
  | .getAfterDate d => (st, .recList (memGetAfterDate d st))
  | .getBeforeDate d => (st, .recList (memGetBeforeDate d st))

/-- One step of the Redis-backed backend. -/
def redisStep (st : RedisState) : StoreOp → RedisState × StoreOut
  | .add r => (redisAdd r st, .done)
  | .getById id => (st, .recOpt (redisGetById id st))
  | .getAll => (st, .recList (redisGetAll st))
  | .search q sii => (st, .recList (redisSearch q sii st))
  | .del id => ((redisDelete id st).1, .flag (redisDelete id st).2)
  | .clear => (redisClear st, .done)
  | .count => (st, .num (redisCount st))
  | .existsOp id => (st, .flag (redisExists id st))
  | .getByLanguage l => (st, .recList (redisGetByLanguage l st))
  | .getAfterDate d => (st, .recList (redisGetAfterDate d st))
  | .getBeforeDate d => (st, .recList (redisGetBeforeDate d st))

/-- Run a sequence of operations on the in-memory backend, collecting
every observable result. -/
def memRun : List Recipe → List StoreOp → List StoreOut
  | _, [] => []
  | st, op :: ops => (memStep st op).2 :: memRun (memStep st op).1 ops

/-- Run a sequence of operations on the Redis-backed backend, collecting
every observable result. -/
def redisRun : RedisState → List StoreOp → List StoreOut
  | _, [] => []
  | st, op :: ops => (redisStep st op).2 :: redisRun (redisStep st op).1 ops

/-- Well-formedness of an in-memory state: every record has a valid
creation date and ids are pairwise distinct (Map keys are unique). -/
def goodState (st : List Recipe) : Prop :=
  (∀ r ∈ st, validDate r.createdAt) ∧ (st.map Recipe.id).Nodup

/-- The Redis table corresponding to an in-memory state. -/
def kvOf (st : List Recipe) : List (String × StoredRecipe) :=
  st.map (fun r => (recipeKey r.id, serializeRecipe r))

/-- Correspondence between an in-memory state and a Redis state. -/
def relState (st : List Recipe) (rs : RedisState) : Prop :=
  rs.kv = kvOf st ∧ rs.index = st.map Recipe.id

theorem recipeKey_inj {a b : String} (h : recipeKey a = recipeKey b) : a = b := by
  unfold recipeKey at h
  have hd := congrArg String.data h
  rw [String.data_append, String.data_append] at hd
  exact String.ext (List.append_cancel_left hd)

theorem recipeKey_beq (a b : String) : (recipeKey a == recipeKey b) = (a == b) := by
  by_cases hab : a = b
  · subst hab
    rw [beq_self_eq_true, beq_self_eq_true]
  · rw [beq_eq_false_iff_ne.mpr hab, beq_eq_false_iff_ne.mpr (fun hc => hab (recipeKey_inj hc))]

theorem anyCongr {α : Type} {p q : α → Bool} : ∀ l : List α,
    (∀ a ∈ l, p a = q a) → l.any p = l.any q := by
  intro l
  induction l with
  | nil => intro _; rfl
  | cons x xs ih =>
    intro h
    rw [List.any_cons, List.any_cons, h x (List.mem_cons_self x xs),
      ih (fun a ha => h a (List.mem_cons_of_mem x ha))]

theorem fmCongr {α β : Type} {f g : α → Option β} : ∀ l : List α,
    (∀ a ∈ l, f a = g a) → l.filterMap f = l.filterMap g := by
  intro l
  induction l with
  | nil => intro _; rfl
  | cons x xs ih =>
    intro h
    rw [List.filterMap_cons, List.filterMap_cons, h x (List.mem_cons_self x xs),
      ih (fun a ha => h a (List.mem_cons_of_mem x ha))]

theorem nodupAppendSingleton {α : Type} (l : List α) (a : α) :
    l.Nodup → a ∉ l → (l ++ [a]).Nodup := by
  intro hn ha
  induction l with
  | nil => simp
  | cons x xs ih =>
    rw [List.cons_append, List.nodup_cons]
    rw [List.nodup_cons] at hn
    constructor
    · intro hc
      rcases List.mem_append.mp hc with h1 | h2
      · exact hn.1 h1
      · rw [List.mem_singleton] at h2
        subst h2
        exact ha (List.mem_cons_self x xs)
    · exact ih hn.2 (fun hc => ha (List.mem_cons_of_mem x hc))

/-- Internal round-trip lemma shared by the storage development. -/
theorem deser_ser (r : Recipe) (h : validDate r.createdAt) :
    deserializeRecipe (serializeRecipe r) = some r := by
  unfold deserializeRecipe serializeRecipe parseISO toISOString
  rw [show (String.mk (toISOChars r.createdAt)).data = toISOChars r.createdAt from rfl]
  rw [parseISOChars_toISOChars _ h]
  rfl

theorem kvGet_kvOf (id : String) : ∀ st : List Recipe,
    kvGet (recipeKey id) (kvOf st)
      = (st.find? (fun r => r.id == id)).map serializeRecipe := by
  intro st
  induction st with
  | nil => rfl
  | cons x xs ih =>
    show kvGet (recipeKey id) ((recipeKey x.id, serializeRecipe x) :: kvOf xs) = _
    by_cases hid : x.id = id
    · subst hid
      unfold kvGet
      rw [List.find?_cons_of_pos _ (by simp), List.find?_cons_of_pos _ (by simp)]
      rfl
    · have h1 : ((recipeKey x.id, serializeRecipe x).1 == recipeKey id) = false := by
        show (recipeKey x.id == recipeKey id) = false
        rw [recipeKey_beq]
        exact beq_eq_false_iff_ne.mpr hid
      have h2 : (x.id == id) = false := beq_eq_false_iff_ne.mpr hid
      unfold kvGet at ih ⊢
      rw [List.find?_cons_of_neg _ (by simp [h1]), List.find?_cons_of_neg _ (by simp [h2])]
      exact ih

theorem kvGet_isSome_any (id : String) (st : List Recipe) :
    (kvGet (recipeKey id) (kvOf st)).isSome = st.any (fun x => x.id == id) := by
  rw [kvGet_kvOf]
  cases hf : st.find? (fun r => r.id == id) with
  | none =>
    rw [List.find?_eq_none] at hf
    have hA : st.any (fun x => x.id == id) = false := by
      rw [List.any_eq_false]
      intro x hx
      simpa using hf x hx
    rw [Option.map_none', hA]
    rfl
  | some r =>
    have hp : (r.id == id) = true := List.find?_some (p := fun x : Recipe => x.id == id) hf
    have hA : st.any (fun x => x.id == id) = true :=
      List.any_eq_true.mpr ⟨r, List.mem_of_find?_eq_some hf, hp⟩
    rw [Option.map_some', hA]
    rfl

theorem kvGet_cons_ne (x : Recipe) (id : String) (xs : List Recipe) (hne : x.id ≠ id) :
    kvGet (recipeKey id) (kvOf (x :: xs)) = kvGet (recipeKey id) (kvOf xs) := by
  show kvGet (recipeKey id) ((recipeKey x.id, serializeRecipe x) :: kvOf xs) = _
  unfold kvGet
  rw [List.find?_cons_of_neg _ (by simp [recipeKey_beq, hne])]

theorem getAllCore : ∀ st : List Recipe, (st.map Recipe.id).Nodup →
    (∀ r ∈ st, validDate r.createdAt) →
    (st.map Recipe.id).filterMap
      (fun id => (kvGet (recipeKey id) (kvOf st)).bind deserializeRecipe) = st := by
  intro st
  induction st with
  | nil => intro _ _; rfl
  | cons x xs ih =>
    intro hnd hval
    rw [List.map_cons] at hnd
    rw [List.nodup_cons] at hnd
    rw [List.map_cons, List.filterMap_cons]
    have hhead : kvGet (recipeKey x.id) (kvOf (x :: xs)) = some (serializeRecipe x) := by
      rw [kvGet_kvOf]
      rw [List.find?_cons_of_pos _ (by simp)]
      rfl
    rw [hhead]
    rw [show (some (serializeRecipe x)).bind deserializeRecipe
        = deserializeRecipe (serializeRecipe x) from rfl]
    rw [deser_ser x (hval x (List.mem_cons_self x xs))]
    show x :: (xs.map Recipe.id).filterMap
        (fun id => (kvGet (recipeKey id) (kvOf (x :: xs))).bind deserializeRecipe) = x :: xs
    congr 1
    rw [fmCongr (xs.map Recipe.id) (fun id hid => by
      rw [kvGet_cons_ne x id xs (fun he => hnd.1 (by rw [he]; exact hid))])]
    exact ih hnd.2 (fun r hr => hval r (List.mem_cons_of_mem x hr))

theorem redisGetAll_rel {st : List Recipe} {rs : RedisState}
    (hg : goodState st) (hrel : relState st rs) : redisGetAll rs = memGetAll st := by
  obtain ⟨hval, hnd⟩ := hg
  obtain ⟨hkv, hidx⟩ := hrel
  unfold redisGetAll memGetAll
  rw [hkv, hidx, List.filterMap_filterMap, getAllCore st hnd hval]

theorem mapFilterComm {α β : Type} (f : α → β) (p : β → Bool) (q : α → Bool)
    (hpq : ∀ a, q a = p (f a)) : ∀ l : List α, (l.filter q).map f = (l.map f).filter p := by
  intro l
  induction l with
  | nil => rfl
  | cons x xs ih =>
    rw [List.map_cons, List.filter_cons, List.filter_cons, ← hpq x]
    cases hq : q x with
    | true =>
      rw [if_pos rfl, if_pos rfl, List.map_cons, ih]
    | false =>
      rw [if_neg (by simp), if_neg (by simp), ih]

theorem anyMap {α β : Type} (f : α → β) (p : β → Bool) : ∀ l : List α,
    (l.map f).any p = l.any (fun a => p (f a)) := by
  intro l
  induction l with
  | nil => rfl
  | cons x xs ih => rw [List.map_cons, List.any_cons, List.any_cons, ih]

theorem kvOf_any (rid : String) (st : List Recipe) :
    (kvOf st).any (fun p => p.1 == recipeKey rid) = st.any (fun x => x.id == rid) := by
  unfold kvOf
  rw [anyMap]
  exact anyCongr st (fun a _ => recipeKey_beq a.id rid)

theorem mem_map_id_iff_any (rid : String) (st : List Recipe) :
    rid ∈ st.map Recipe.id ↔ st.any (fun x => x.id == rid) = true := by
  rw [List.any_eq_true, List.mem_map]
  constructor
  · rintro ⟨a, ha, hid⟩
    exact ⟨a, ha, beq_iff_eq.mpr hid⟩
  · rintro ⟨a, ha, hid⟩
    exact ⟨a, ha, beq_iff_eq.mp hid⟩

theorem kvOf_memAdd_present (r : Recipe) (st : List Recipe) :
    kvOf (st.map (fun x => if x.id == r.id then r else x))
      = (kvOf st).map
          (fun p => if p.1 == recipeKey r.id then (recipeKey r.id, serializeRecipe r) else p) := by
  unfold kvOf
  rw [List.map_map, List.map_map]
  apply List.map_congr_left
  intro a _
  by_cases ha : (a.id == r.id) = true
  · have hk : (recipeKey a.id == recipeKey r.id) = true := by
      rw [recipeKey_beq]
      exact ha
    simp only [Function.comp_apply, ha, if_true, hk]
  · have hk : ¬((recipeKey a.id == recipeKey r.id) = true) := by
      rw [recipeKey_beq]
      exact ha
    simp only [Function.comp_apply, if_neg ha, if_neg hk]

theorem map_id_memAdd_present (r : Recipe) (st : List Recipe) :
    (st.map (fun x => if x.id == r.id then r else x)).map Recipe.id = st.map Recipe.id := by
  rw [List.map_map]
  apply List.map_congr_left
  intro a _
  by_cases ha : (a.id == r.id) = true
  · simp only [Function.comp_apply, ha, if_true]
    exact (beq_iff_eq.mp ha).symm
  · simp only [Function.comp_apply, if_neg ha]

theorem kvOf_append (st : List Recipe) (r : Recipe) :
    kvOf (st ++ [r]) = kvOf st ++ [(recipeKey r.id, serializeRecipe r)] := by
  unfold kvOf
  rw [List.map_append]
  rfl

theorem kvOf_clear_nil (st : List Recipe) :
    (kvOf st).filter
      (fun p => !((st.map Recipe.id).any (fun id => recipeKey id == p.1))) = [] := by
  rw [List.filter_eq_nil_iff]
  intro p hp
  rcases List.mem_map.mp hp with ⟨a, ha, hap⟩
  intro hcon
  rw [Bool.not_eq_true'] at hcon
  have htrue : ((st.map Recipe.id).any fun id => recipeKey id == p.1) = true := by
    rw [List.any_eq_true]
    exact ⟨a.id, List.mem_map.mpr ⟨a, ha, rfl⟩, by rw [← hap]; exact beq_self_eq_true _⟩
  rw [hcon] at htrue
  exact Bool.false_ne_true htrue

theorem goodState_memAdd (r : Recipe) (st : List Recipe) (hg : goodState st)
    (hvr : validDate r.createdAt) : goodState (memAdd r st) := by
  obtain ⟨hval, hnd⟩ := hg
  unfold memAdd
  cases hany : st.any (fun x => x.id == r.id) with
  | true =>
    rw [if_pos rfl]
    constructor
    · intro x hx
      rcases List.mem_map.mp hx with ⟨a, ha, hax⟩
      by_cases hb : (a.id == r.id) = true
      · rw [← hax, if_pos hb]
        exact hvr
      · rw [← hax, if_neg hb]
        exact hval a ha
    · rw [map_id_memAdd_present]
      exact hnd
  | false =>
    rw [if_neg (by simp)]
    constructor
    · intro x hx
      rcases List.mem_append.mp hx with h1 | h2
      · exact hval x h1
      · rw [List.mem_singleton] at h2
        subst h2
        exact hvr
    · rw [List.map_append]
      apply nodupAppendSingleton _ _ hnd
      intro hmem
      rw [mem_map_id_iff_any, hany] at hmem
      exact Bool.false_ne_true hmem

theorem kvSet_kvOf (r : Recipe) (st : List Recipe) :
    kvSet (recipeKey r.id) (serializeRecipe r) (kvOf st) = kvOf (memAdd r st) := by
  unfold kvSet memAdd
  rw [kvOf_any]
  cases hany : st.any (fun x => x.id == r.id) with
  | true =>
    rw [if_pos rfl, if_pos rfl]
    exact (kvOf_memAdd_present r st).symm
  | false =>
    rw [if_neg (by simp), if_neg (by simp)]
    exact (kvOf_append st r).symm

theorem sadd_mapId (r : Recipe) (st : List Recipe) :
    saddModel r.id (st.map Recipe.id) = (memAdd r st).map Recipe.id := by
  unfold saddModel memAdd
  cases hany : st.any (fun x => x.id == r.id) with
  | true =>
    rw [if_pos ((mem_map_id_iff_any r.id st).mpr hany), if_pos rfl]
    exact (map_id_memAdd_present r st).symm
  | false =>
    rw [if_neg (fun hmem => by
        rw [mem_map_id_iff_any, hany] at hmem
        exact Bool.false_ne_true hmem),
      if_neg (by simp)]
    rw [List.map_append]
    rfl

theorem relState_add (r : Recipe) (st : List Recipe) (rs : RedisState)
    (hrel : relState st rs) : relState (memAdd r st) (redisAdd r rs) := by
  obtain ⟨hkv, hidx⟩ := hrel
  constructor
  · show kvSet (recipeKey r.id) (serializeRecipe r) rs.kv = kvOf (memAdd r st)
    rw [hkv]
    exact kvSet_kvOf r st
  · show saddModel r.id rs.index = (memAdd r st).map Recipe.id
    rw [hidx]
    exact sadd_mapId r st

theorem kvOf_filter_del (id : String) (st : List Recipe) :
    kvOf (st.filter (fun x => !(x.id == id))) = kvDel (recipeKey id) (kvOf st) := by
  unfold kvOf kvDel
  apply mapFilterComm
  intro a
  rw [recipeKey_beq]

theorem map_id_filter_del (id : String) (st : List Recipe) :
    (st.filter (fun x => !(x.id == id))).map Recipe.id
      = sremModel id (st.map Recipe.id) := by
  unfold sremModel
  apply mapFilterComm
  intro a
  rfl

theorem goodState_filter_del (id : String) (st : List Recipe) (hg : goodState st) :
    goodState (st.filter (fun x => !(x.id == id))) := by
  obtain ⟨hval, hnd⟩ := hg
  constructor
  · intro r hr
    exact hval r (List.mem_of_mem_filter hr)
  · rw [map_id_filter_del]
    exact List.Nodup.filter _ hnd

theorem memDelete_snd (id : String) (st : List Recipe) :
    (memDelete id st).2 = st.any (fun x => x.id == id) := by
  unfold memDelete
  cases hany : st.any (fun x => x.id == id) with
  | true => rw [if_pos rfl]
  | false => rw [if_neg (by simp)]

theorem memDelete_fst (id : String) (st : List Recipe) :
    (memDelete id st).1
      = if st.any (fun x => x.id == id) then st.filter (fun x => !(x.id == id)) else st := by
  unfold memDelete
  cases hany : st.any (fun x => x.id == id) with
  | true => rw [if_pos rfl, if_pos rfl]
  | false => rw [if_neg (by simp), if_neg (by simp)]

theorem redisDelete_snd (id : String) (rs : RedisState) :
    (redisDelete id rs).2 = (kvGet (recipeKey id) rs.kv).isSome := by
  unfold redisDelete
  cases hs : (kvGet (recipeKey id) rs.kv).isSome with
  | true => rw [if_pos rfl]
  | false => rw [if_neg (by simp)]

theorem redisDelete_fst (id : String) (rs : RedisState) :
    (redisDelete id rs).1
      = if (kvGet (recipeKey id) rs.kv).isSome then
          { kv := kvDel (recipeKey id) rs.kv, index := sremModel id rs.index }
        else rs := by
  unfold redisDelete
  cases hs : (kvGet (recipeKey id) rs.kv).isSome with
  | true => rw [if_pos rfl, if_pos rfl]
  | false => rw [if_neg (by simp), if_neg (by simp)]

theorem step_sim (st : List Recipe) (rs : RedisState) (op : StoreOp)
    (hg : goodState st) (hrel : relState st rs)
    (hop : ∀ r, op = StoreOp.add r → validDate r.createdAt) :
    (redisStep rs op).2 = (memStep st op).2 ∧
      goodState (memStep st op).1 ∧
      relState (memStep st op).1 (redisStep rs op).1 := by
  have hga := redisGetAll_rel hg hrel
  obtain ⟨hval, hnd⟩ := hg
  obtain ⟨hkv, hidx⟩ := hrel
  cases op with
  | add r =>
    exact ⟨rfl, goodState_memAdd r st ⟨hval, hnd⟩ (hop r rfl),
      relState_add r st rs ⟨hkv, hidx⟩⟩
  | getById id =>
    refine ⟨?_, ⟨hval, hnd⟩, hkv, hidx⟩
    show StoreOut.recOpt (redisGetById id rs) = StoreOut.recOpt (memGetById id st)
    congr 1
    unfold redisGetById memGetById
    rw [hkv, kvGet_kvOf]
    cases hf : st.find? (fun r => r.id == id) with
    | none => rw [Option.map_none']
    | some r =>
      rw [Option.map_some']
      show deserializeRecipe (serializeRecipe r) = some r
      exact deser_ser r (hval r (List.mem_of_find?_eq_some hf))
  | getAll =>
    refine ⟨?_, ⟨hval, hnd⟩, hkv, hidx⟩
    show StoreOut.recList (redisGetAll rs) = StoreOut.recList (memGetAll st)
    rw [hga]
  | search q sii =>
    refine ⟨?_, ⟨hval, hnd⟩, hkv, hidx⟩
    show StoreOut.recList (redisSearch q sii rs) = StoreOut.recList (memSearch q sii st)
    congr 1
    unfold redisSearch memSearch
    rw [hga]
    unfold memGetAll
    rw [filter_jsSortDesc, jsSortDesc_idem]
  | del id =>
    have hflag : (kvGet (recipeKey id) rs.kv).isSome = st.any (fun x => x.id == id) := by
      rw [hkv]
      exact kvGet_isSome_any id st
    refine ⟨?_, ?_, ?_⟩
    · show StoreOut.flag (redisDelete id rs).2 = StoreOut.flag (memDelete id st).2
      rw [redisDelete_snd, memDelete_snd, hflag]
    · show goodState (memDelete id st).1
      rw [memDelete_fst]
      cases hany : st.any (fun x => x.id == id) with
      | true =>
        rw [if_pos rfl]
        exact goodState_filter_del id st ⟨hval, hnd⟩
      | false =>
        rw [if_neg (by simp)]
        exact ⟨hval, hnd⟩
    · show relState (memDelete id st).1 (redisDelete id rs).1
      rw [memDelete_fst, redisDelete_fst, hflag]
      cases hany : st.any (fun x => x.id == id) with
      | true =>
        rw [if_pos rfl, if_pos rfl]
        refine ⟨?_, ?_⟩
        · show kvDel (recipeKey id) rs.kv = _
          rw [hkv]
          exact (kvOf_filter_del id st).symm
        · show sremModel id rs.index = _
          rw [hidx]
          exact (map_id_filter_del id st).symm
      | false =>
        rw [if_neg (by simp), if_neg (by simp)]
        exact ⟨hkv, hidx⟩
  | clear =>
    refine ⟨rfl, ⟨fun r hr => absurd hr (List.not_mem_nil r), List.nodup_nil⟩, ?_, rfl⟩
    show (redisClear rs).kv = kvOf []
    unfold redisClear
    rw [hkv, hidx, kvOf_clear_nil]
    rfl
  | count =>
    refine ⟨?_, ⟨hval, hnd⟩, hkv, hidx⟩
    show StoreOut.num (redisCount rs) = StoreOut.num (memCount st)
    congr 1
    unfold redisCount memCount
    rw [hidx, List.length_map]
  | existsOp id =>
    refine ⟨?_, ⟨hval, hnd⟩, hkv, hidx⟩
    show StoreOut.flag (redisExists id rs) = StoreOut.flag (memExists id st)
    congr 1
    unfold redisExists memExists
    rw [hkv]
    exact kvGet_isSome_any id st
  | getByLanguage lang =>
    refine ⟨?_, ⟨hval, hnd⟩, hkv, hidx⟩
    show StoreOut.recList (redisGetByLanguage lang rs)
        = StoreOut.recList (memGetByLanguage lang st)
    congr 1
    unfold redisGetByLanguage memGetByLanguage
    rw [hga]
    unfold memGetAll
    rw [filter_jsSortDesc, jsSortDesc_idem]
  | getAfterDate dt =>
    refine ⟨?_, ⟨hval, hnd⟩, hkv, hidx⟩
    show StoreOut.recList (redisGetAfterDate dt rs)
        = StoreOut.recList (memGetAfterDate dt st)
    congr 1
    unfold redisGetAfterDate memGetAfterDate
    rw [hga]
    unfold memGetAll
    rw [filter_jsSortDesc, jsSortDesc_idem]
  | getBeforeDate dt =>
    refine ⟨?_, ⟨hval, hnd⟩, hkv, hidx⟩
    show StoreOut.recList (redisGetBeforeDate dt rs)
        = StoreOut.recList (memGetBeforeDate dt st)
    congr 1
    unfold redisGetBeforeDate memGetBeforeDate
    rw [hga]
    unfold memGetAll
    rw [filter_jsSortDesc, jsSortDesc_idem]

theorem run_sim : ∀ (ops : List StoreOp) (st : List Recipe) (rs : RedisState),
    goodState st → relState st rs →
    (∀ r, StoreOp.add r ∈ ops → validDate r.createdAt) →
    redisRun rs ops = memRun st ops := by
  intro ops
  induction ops with
  | nil => intro st rs _ _ _; rfl
  | cons op ops ih =>
    intro st rs hg hrel hops
    obtain ⟨hout, hg2, hrel2⟩ := step_sim st rs op hg hrel
      (fun r hr => hops r (by rw [← hr]; exact List.mem_cons_self op ops))
    show (redisStep rs op).2 :: redisRun (redisStep rs op).1 ops
        = (memStep st op).2 :: memRun (memStep st op).1 ops
    rw [hout, ih _ _ hg2 hrel2 (fun r hr => hops r (List.mem_cons_of_mem op hr))]

/-- C1: starting from empty states, the Redis-backed RecipeStorage and
the in-memory RecipeStorage return equal results for every operation of
every operation sequence — the two backend implementations are
observationally equivalent.  Every recipe handed to add is required to
carry a representable JavaScript Date (as every runtime Date value
does); without that, toISOString itself would throw. -/
theorem C1_backend_equivalence (ops : List StoreOp)
    (h : ∀ r, StoreOp.add r ∈ ops → validDate r.createdAt) :
    redisRun ⟨[], []⟩ ops = memRun [] ops :=
  run_sim ops [] ⟨[], []⟩
    ⟨fun r hr => absurd hr (List.not_mem_nil r), List.nodup_nil⟩ ⟨rfl, rfl⟩ h

/-- Second sample recipe for witnesses. -/
def sampleRecipe2 : Recipe :=
  { id := "recipe_1700000100000_xyz789ghi"
    name := "Pasta"
    cookingTime := some "20 minutes"
    ingredients := ["pasta", "tomato", "basil"]
    instructions := ["boil", "mix"]
    originalLanguage := Lang.en
    youtubeUrl := "https://youtube.com/watch?v=abc12345678"
    transcript := "some transcript"
    createdAt := 1700000100000 }

/-- Concrete operation sequence exercising every store operation. -/
def sampleOps : List StoreOp :=
  [StoreOp.add sampleRecipe, StoreOp.add sampleRecipe2, StoreOp.getAll,
    StoreOp.search "томат" true, StoreOp.search "TOMATO" true,
    StoreOp.getById "recipe_1700000000000_abc123def",
    StoreOp.existsOp "nothere", StoreOp.count, StoreOp.getByLanguage Lang.ru,
    StoreOp.getAfterDate 0, StoreOp.getBeforeDate 2000000000000,
    StoreOp.del "recipe_1700000000000_abc123def", StoreOp.count,
    StoreOp.clear, StoreOp.getAll]

/-- Witness for C1 at a concrete operation sequence. -/
theorem C1_backend_equivalence_witness :
    (∀ r, StoreOp.add r ∈ sampleOps → validDate r.createdAt) ∧
      redisRun ⟨[], []⟩ sampleOps = memRun [] sampleOps := by
  have harg : ∀ r, StoreOp.add r ∈ sampleOps → validDate r.createdAt := by
    intro r hr
    simp only [sampleOps, List.mem_cons, List.not_mem_nil, or_false] at hr
    rcases hr with h | h | h | h | h | h | h | h | h | h | h | h | h | h | h <;>
      first
        | (injection h with h2; rw [h2]; decide)
        | cases h
  exact ⟨harg, C1_backend_equivalence sampleOps harg⟩

/-- C2: for every store state and query, search (with its default
searchInIngredients) returns exactly the recipes whose name contains the
query case-insensitively or some ingredient does — the union of both
match sets — ordered by creation time descending; when nothing matches
the result is the empty list.  The function is total, so no input
produces an error. -/
theorem C2_search_semantics (st : List Recipe) (q : String) :
    (∀ r, r ∈ memSearch q true st
        ↔ r ∈ st ∧ (containsSub (jsToLower q) (jsToLower r.name) = true
            ∨ ∃ ing ∈ r.ingredients, containsSub (jsToLower q) (jsToLower ing) = true))
    ∧ sortedDesc (memSearch q true st)
    ∧ ((∀ r ∈ st, matchesQuery q true r = false) → memSearch q true st = []) := by
  refine ⟨?_, jsSortDesc_sorted _, ?_⟩
  · intro r
    unfold memSearch
    rw [mem_jsSortDesc, List.mem_filter]
    unfold matchesQuery
    constructor
    · rintro ⟨hmem, hmatch⟩
      refine ⟨hmem, ?_⟩
      rw [Bool.or_eq_true] at hmatch
      rcases hmatch with h | h
      · exact Or.inl h
      · rw [Bool.and_eq_true] at h
        rcases List.any_eq_true.mp h.2 with ⟨ing, hing, hc⟩
        exact Or.inr ⟨ing, hing, hc⟩
    · rintro ⟨hmem, hm⟩
      refine ⟨hmem, ?_⟩
      rw [Bool.or_eq_true]
      rcases hm with h | ⟨ing, hing, hc⟩
      · exact Or.inl h
      · exact Or.inr (by
          rw [Bool.and_eq_true]
          exact ⟨rfl, List.any_eq_true.mpr ⟨ing, hing, hc⟩⟩)
  · intro hnone
    unfold memSearch
    rw [List.filter_eq_nil_iff.mpr (fun r hr => by simp [hnone r hr])]
    rfl

/-- Witness for C2: an ingredient hit with mixed Cyrillic case, and an
empty result for a query matching nothing. -/
theorem C2_search_semantics_witness :
    sampleRecipe ∈ memSearch "ТоМ" true [sampleRecipe] ∧
      memSearch "xyzzy" true [sampleRecipe] = [] :=
  ⟨((C2_search_semantics [sampleRecipe] "ТоМ").1 sampleRecipe).mpr
      ⟨by decide, Or.inr ⟨"томат", by decide, by decide⟩⟩,
    (C2_search_semantics [sampleRecipe] "xyzzy").2.2 (by decide)⟩

theorem find_id_nodup : ∀ st : List Recipe, (st.map Recipe.id).Nodup →
    ∀ r ∈ st, st.find? (fun x => x.id == r.id) = some r := by
  intro st
  induction st with
  | nil => intro _ r hr; exact absurd hr (List.not_mem_nil r)
  | cons x xs ih =>
    intro hnd r hr
    rw [List.map_cons, List.nodup_cons] at hnd
    rcases List.mem_cons.mp hr with h1 | h2
    · subst h1
      rw [List.find?_cons_of_pos _ (by simp)]
    · by_cases hxr : x.id = r.id
      · exfalso
        apply hnd.1
        rw [hxr]
        exact List.mem_map.mpr ⟨r, h2, rfl⟩
      · rw [List.find?_cons_of_neg _ (by simp [hxr])]
        exact ih hnd.2 r h2

/-- C10: in the Redis-backed store, when the table holds serialized
valid records under their namespaced keys, getAll never fails and
returns exactly the records that are both indexed and stored, sorted by
creation time descending; an identifier in the index set whose record is
absent — the dangling state a crash between the two non-atomic delete
steps leaves — is silently skipped and fabricates nothing. -/
theorem C10_getAll_dangling (st : List Recipe) (rs : RedisState)
    (hg : goodState st) (hkv : rs.kv = kvOf st) :
    (∀ r : Recipe, r ∈ redisGetAll rs ↔ r ∈ st ∧ r.id ∈ rs.index)
    ∧ sortedDesc (redisGetAll rs) := by
  obtain ⟨hval, hnd⟩ := hg
  refine ⟨?_, jsSortDesc_sorted _⟩
  intro r
  unfold redisGetAll
  rw [mem_jsSortDesc, List.filterMap_filterMap, List.mem_filterMap]
  constructor
  · rintro ⟨id, hidIdx, hbind⟩
    rw [hkv, kvGet_kvOf] at hbind
    cases hf : st.find? (fun x => x.id == id) with
    | none =>
      rw [hf, Option.map_none'] at hbind
      exact absurd hbind (by simp)
    | some x =>
      rw [hf, Option.map_some'] at hbind
      have hx : x ∈ st := List.mem_of_find?_eq_some hf
      have hds : deserializeRecipe (serializeRecipe x) = some r := hbind
      rw [deser_ser x (hval x hx)] at hds
      have hxr : x = r := Option.some.inj hds
      subst hxr
      have hid : x.id = id :=
        beq_iff_eq.mp (List.find?_some (p := fun y : Recipe => y.id == id) hf)
      exact ⟨hx, by rw [hid]; exact hidIdx⟩
  · rintro ⟨hmem, hidx⟩
    refine ⟨r.id, hidx, ?_⟩
    rw [hkv, kvGet_kvOf, find_id_nodup st hnd r hmem, Option.map_some']
    exact deser_ser r (hval r hmem)

/-- Witness for C10: a state with one stored record and a dangling
identifier in the index. -/
theorem C10_getAll_dangling_witness :
    sampleRecipe ∈ redisGetAll ⟨kvOf [sampleRecipe], ["ghostid", sampleRecipe.id]⟩ ∧
      sortedDesc (redisGetAll ⟨kvOf [sampleRecipe], ["ghostid", sampleRecipe.id]⟩) := by
  have h := C10_getAll_dangling [sampleRecipe]
    ⟨kvOf [sampleRecipe], ["ghostid", sampleRecipe.id]⟩
    ⟨by decide, by decide⟩ rfl
  exact ⟨(h.1 sampleRecipe).mpr ⟨by decide, by decide⟩, h.2⟩

/-! ## YouTube URL validation (supadata.ts)

SupadataService.extractVideoId matches the URL against one unanchored
regular expression whose alternatives are five URL shape markers, each
followed by one or more characters outside the delimiter set, and
against an anchored 11-character bare identifier pattern.  The regex
search is modelled as a left-to-right scan; at each position at most one
marker can match because the markers differ pairwise at their first
divergent character. -/

/-- Characters allowed in the captured identifier (the regex class
excludes the ampersand, newline, question mark and hash delimiters). -/
def idChar (c : Char) : Bool := !(c == '&' || c == '\n' || c == '?' || c == '#')

/-- Marker of the watch URL shape. -/
def watchMarker : List Char := "youtube.com/watch?v=".data

/-- Marker of the short-link URL shape. -/
def shortMarker : List Char := "youtu.be/".data

/-- Marker of the embed URL shape. -/
def embedMarker : List Char := "youtube.com/embed/".data

/-- Marker of the v URL shape. -/
def vMarker : List Char := "youtube.com/v/".data

/-- Marker of the shorts URL shape. -/
def shortsMarker : List Char := "youtube.com/shorts/".data

/-- The five URL shape markers of the code, in alternative order. -/
def urlMarkers5 : List (List Char) :=
  [watchMarker, shortMarker, embedMarker, vMarker, shortsMarker]

/-- Modelled from the spec wording of C4: the four shapes the spec
lists (watch, short-link, embed, shorts) — without the v shape. -/
def specMarkers4 : List (List Char) :=
  [watchMarker, shortMarker, embedMarker, shortsMarker]

/-- Try one marker at the current position: the marker must match here
and be followed by a non-empty run of identifier characters. -/
def markerHit (m : List Char) (cs : List Char) : Option (List Char) :=
  if listStartsWith m cs = true then
    match (cs.drop m.length).takeWhile idChar with
    | [] => none
    | c :: rest => some (c :: rest)
  else none

/-- First-success choice of two optional results. -/
def oalt {α : Type} (a b : Option α) : Option α :=
  match a with
  | some x => some x
  | none => b

/-- Try a list of markers at the current position, in order. -/
def firstHitFor : List (List Char) → List Char → Option (List Char)
  | [], _ => none
  | m :: ms, cs => oalt (markerHit m cs) (firstHitFor ms cs)

/-- Left-to-right scan for the first position where some marker matches
with a non-empty identifier run (the semantics of the unanchored regex
search). -/
def scanFor (ms : List (List Char)) : List Char → Option (List Char)
  | [] => none
  | c :: cs => oalt (firstHitFor ms (c :: cs)) (scanFor ms cs)

/-- The anchored 11-character bare identifier pattern. -/
def bareId (url : String) : Bool :=
  (url.data.length == 11)
    && url.data.all (fun c => c.isAlphanum || c == '_' || c == '-')

/-- Model of SupadataService.extractVideoId; none models the thrown
Invalid YouTube URL format error. -/
def extractVideoId (url : String) : Option String :=
  match scanFor urlMarkers5 url.data with
  | some run => some (String.mk run)
  | none => if bareId url then some url else none

/-- Model of SupadataService.validateYouTubeUrl. -/
def validateYouTubeUrl (url : String) : Option (String × String) :=
  (extractVideoId url).map (fun v => (v, url))

/-- A marker occurs at position i followed by at least one identifier
character. -/
def shapeAt (cs m : List Char) (i : Nat) : Prop :=
  listStartsWith m (cs.drop i) = true ∧ (cs.drop (i + m.length)).takeWhile idChar ≠ []

theorem markerHit_shape (m cs : List Char) :
    (markerHit m cs).isSome = true ↔ shapeAt cs m 0 := by
  unfold markerHit shapeAt
  rw [List.drop_zero, Nat.zero_add]
  by_cases hsw : listStartsWith m cs = true
  · rw [if_pos hsw]
    cases htw : (cs.drop m.length).takeWhile idChar with
    | nil => simp [hsw, htw]
    | cons c rest => simp [hsw, htw]
  · rw [if_neg hsw]
    simp [hsw]

theorem oalt_isSome {α : Type} (a b : Option α) :
    (oalt a b).isSome = (a.isSome || b.isSome) := by
  cases a <;> rfl

theorem firstHitFor_shape : ∀ (ms : List (List Char)) (cs : List Char),
    (firstHitFor ms cs).isSome = true ↔ ∃ m ∈ ms, shapeAt cs m 0 := by
  intro ms
  induction ms with
  | nil => intro cs; simp [firstHitFor]
  | cons m ms ih =>
    intro cs
    show (oalt (markerHit m cs) (firstHitFor ms cs)).isSome = true ↔ _
    rw [oalt_isSome, Bool.or_eq_true, markerHit_shape, ih]
    constructor
    · rintro (h | ⟨m2, hm2, hs⟩)
      · exact ⟨m, List.mem_cons_self m ms, h⟩
      · exact ⟨m2, List.mem_cons_of_mem m hm2, hs⟩
    · rintro ⟨m2, hm2, hs⟩
      rcases List.mem_cons.mp hm2 with he | hm
      · subst he
        exact Or.inl hs
      · exact Or.inr ⟨m2, hm, hs⟩

theorem shapeAt_succ (cs m : List Char) (c : Char) (i : Nat) :
    shapeAt (c :: cs) m (i + 1) ↔ shapeAt cs m i := by
  unfold shapeAt
  rw [List.drop_succ_cons, show i + 1 + m.length = (i + m.length) + 1 by omega,
    List.drop_succ_cons]

theorem scanFor_shape (ms : List (List Char)) (hms : ∀ m ∈ ms, m ≠ []) :
    ∀ cs, (scanFor ms cs).isSome = true ↔ ∃ i m, m ∈ ms ∧ shapeAt cs m i := by
  intro cs
  induction cs with
  | nil =>
    show (none : Option (List Char)).isSome = true ↔ _
    constructor
    · intro h
      exact absurd h (by simp)
    · rintro ⟨i, m, hm, hs1, _⟩
      rw [List.drop_nil] at hs1
      cases m with
      | nil => exact absurd rfl (hms [] hm)
      | cons a as => exact absurd hs1 (by simp [listStartsWith])
  | cons c cs ih =>
    show (oalt (firstHitFor ms (c :: cs)) (scanFor ms cs)).isSome = true ↔ _
    rw [oalt_isSome, Bool.or_eq_true, firstHitFor_shape, ih]
    constructor
    · rintro (⟨m, hm, hs⟩ | ⟨i, m, hm, hs⟩)
      · exact ⟨0, m, hm, hs⟩
      · exact ⟨i + 1, m, hm, (shapeAt_succ cs m c i).mpr hs⟩
    · rintro ⟨i, m, hm, hs⟩
      cases i with
      | zero => exact Or.inl ⟨m, hm, hs⟩
      | succ j => exact Or.inr ⟨j, m, hm, (shapeAt_succ cs m c j).mp hs⟩

theorem extractVideoId_isSome (url : String) :
    (extractVideoId url).isSome = true
      ↔ ((∃ i m, m ∈ urlMarkers5 ∧ shapeAt url.data m i) ∨ bareId url = true) := by
  unfold extractVideoId
  cases hscan : scanFor urlMarkers5 url.data with
  | some run =>
    show (some (String.mk run)).isSome = true ↔ _
    constructor
    · intro _
      refine Or.inl ((scanFor_shape urlMarkers5 (by decide) url.data).mp ?_)
      rw [hscan]
      rfl
    · intro _
      rfl
  | none =>
    show (if bareId url = true then some url else none).isSome = true ↔ _
    constructor
    · intro h
      by_cases hb : bareId url = true
      · exact Or.inr hb
      · rw [if_neg hb] at h
        exact absurd h (by simp)
    · intro h
      rcases h with hs | hb
      · exfalso
        have hsome := (scanFor_shape urlMarkers5 (by decide) url.data).mpr hs
        rw [hscan] at hsome
        exact absurd hsome (by simp)
      · rw [if_pos hb]
        rfl

/-- Spec-words predicate for C4: the input matches one of the four
spec-listed URL shapes (watch, short-link, embed, shorts) or is an
11-character bare identifier. -/
def specAccepted4 (url : String) : Prop :=
  (∃ i m, m ∈ specMarkers4 ∧ shapeAt url.data m i) ∨ bareId url = true

/-- C4 counterexample: the code accepts youtube.com/v/ URLs (a fifth
shape in the regex), which match none of the four spec-listed shapes
and are not an 11-character bare identifier, so validation does not
succeed exactly on the spec-listed shapes. -/
theorem C4_counterexample :
    extractVideoId "youtube.com/v/abcdefghijk" = some "abcdefghijk"
      ∧ ¬ specAccepted4 "youtube.com/v/abcdefghijk" := by
  constructor
  · decide
  · intro h
    rcases h with ⟨i, m, hm, hs⟩ | hbare
    · have h4 : (scanFor specMarkers4 ("youtube.com/v/abcdefghijk" : String).data).isSome
          = true :=
        (scanFor_shape specMarkers4 (by decide) _).mpr ⟨i, m, hm, hs⟩
      rw [show scanFor specMarkers4 ("youtube.com/v/abcdefghijk" : String).data = none
        from by decide] at h4
      exact absurd h4 (by decide)
    · exact absurd hbare (by decide)

/-! ## Supadata transcript fetch (supadata.ts)

getTranscript validates the URL, performs one HTTP request and
distinguishes a non-ok HTTP status, an ok status whose JSON body
carries a truthy error field, and a plain success.  The HTTP outcome is
an oracle parameter: the model quantifies over every response the
provider could send.  The Bool component records whether the network
request was made. -/

/-- The SupadataError class: a message and an optional HTTP status. -/
structure SupadataError where
  message : String
  statusCode : Option Nat
deriving DecidableEq, Repr

/-- The AIServiceError class: a message and an optional HTTP status. -/
structure AIServiceError where
  message : String
  statusCode : Option Nat
deriving DecidableEq, Repr

/-- The content field of a transcript response: a plain string, an
array of chunk texts, or absent. -/
inductive ContentVal where
  | str (s : String)
  | chunks (l : List String)
  | missing
deriving DecidableEq, Repr

/-- JSON body of a 200 response: optional error and message fields
plus the content field. -/
structure TranscriptData where
  errorField : Option String
  messageField : Option String
  content : ContentVal
deriving DecidableEq, Repr

/-- Oracle for the one HTTP request getTranscript makes. -/
inductive SupadataFetch where
  | httpFail (status : Nat) (statusText : String) (body : String)
  | httpOk (data : TranscriptData)
deriving DecidableEq, Repr

/-- JavaScript truthiness of an optional string field. -/
def jsTruthy (o : Option String) : Bool :=
  match o with
  | none => false
  | some s => !(s == "")

/-- JavaScript a || b on two optional string fields, rendered into a
template literal. -/
def jsOrOpt (a b : Option String) : String :=
  match a with
  | some s => if s == "" then b.getD "" else s
  | none => b.getD ""

/-- Error thrown on a non-ok HTTP response: the interpolated message
embeds the raw provider body. -/
def supadataHttpError (status : Nat) (statusText body : String) : SupadataError :=
  { message := "Supadata API error: " ++ statusText ++ " - " ++ body
    statusCode := some status }

/-- Error thrown when a 200 response carries a truthy error field. -/
def transcriptUnavailableError (d : TranscriptData) : SupadataError :=
  { message := "Transcript unavailable: " ++ jsOrOpt d.messageField d.errorField
    statusCode := some 404 }

/-- Model of SupadataService.getTranscript.  The Bool records whether
the network request was made. -/
def getTranscriptModel (url : String) (f : SupadataFetch) :
    Except SupadataError TranscriptData × Bool :=
  match extractVideoId url with
  | none => (Except.error ⟨"Invalid YouTube URL format", none⟩, false)
  | some _ =>
    match f with
    | .httpFail status statusText body =>
      (Except.error (supadataHttpError status statusText body), true)
    | .httpOk d =>
      if jsTruthy d.errorField then
        (Except.error (transcriptUnavailableError d), true)
      else
        (Except.ok d, true)

/-- Model of SupadataService.getPlainTextTranscript: string content is
returned as is, chunk arrays are joined with single spaces, absent
content is an error. -/
def plainTextOf (url : String) (f : SupadataFetch) : Except SupadataError String :=
  match (getTranscriptModel url f).1 with
  | .error e => .error e
  | .ok d =>
    match d.content with
    | .str s => .ok s
    | .chunks l => .ok (String.intercalate " " l)
    | .missing => .error ⟨"Transcript content is undefined or null", none⟩

/-! ## Z.AI chat completion and recipe extraction (ai.ts)

chatCompletion maps a non-ok HTTP response to an AIServiceError whose
message depends on the status and on whether the body mentions
insufficient balance.  extractRecipe and translateToRussian parse the
completion into a recipe object, validate it, and normalise the
detected language; the parse outcome is an oracle parameter. -/

/-- User-facing message chatCompletion builds for a non-ok response. -/
def zaiErrorMessage (status : Nat) (statusText body : String) : String :=
  if status == 429 || containsSub "Insufficient balance" body then
    "❌ Z.AI account has insufficient balance. Please add credits at https://z.ai/manage-apikey/apikey-list"
  else if status == 401 then
    "❌ Invalid Z.AI API key. Please check your .env file."
  else
    "Z.AI API error: " ++ statusText

/-- Oracle for one chat completion call. -/
inductive ZaiResult where
  | httpFail (status : Nat) (statusText : String) (body : String)
  | content (s : String)
deriving DecidableEq, Repr

/-- Model of AIService.chatCompletion. -/
def chatCompletionModel (z : ZaiResult) : Except AIServiceError String :=
  match z with
  | .httpFail status statusText body =>
    .error ⟨zaiErrorMessage status statusText body, some status⟩
  | .content s => .ok s

/-- Recipe object as parsed from the model output (any field may be
absent in the JSON). -/
structure ParsedRecipe where
  name : Option String
  cookingTime : Option String
  ingredients : Option (List String)
  instructions : Option (List String)
  detectedLanguage : Option String
deriving DecidableEq, Repr

/-- Validated extraction result. -/
structure ExtractedRecipe where
  name : String
  cookingTime : Option String
  ingredients : List String
  instructions : List String
  detectedLanguage : Lang
deriving DecidableEq, Repr

/-- The detected-language normalisation of extractRecipe: anything
other than en or ru becomes en. -/
def coerceLang (o : Option String) : Lang :=
  match o with
  | some s => if s == "ru" then Lang.ru else Lang.en
  | none => Lang.en

/-- Validation and normalisation extractRecipe applies to the parsed
object (the fields pass through verbatim). -/
def extractRecipeFromParsed (p : ParsedRecipe) : Except AIServiceError ExtractedRecipe :=
  if !jsTruthy p.name || p.ingredients.isNone || p.instructions.isNone then
    .error ⟨"Invalid recipe structure from AI response. Missing required fields.", none⟩
  else
    .ok { name := p.name.getD ""
          cookingTime := p.cookingTime
          ingredients := p.ingredients.getD []
          instructions := p.instructions.getD []
          detectedLanguage := coerceLang p.detectedLanguage }

/-- Validation translateToRussian applies to the parsed translation;
detectedLanguage is force-set to ru after validation. -/
def translateFromParsed (q : ParsedRecipe) : Except AIServiceError ExtractedRecipe :=
  if !jsTruthy q.name || q.ingredients.isNone || q.instructions.isNone then
    .error ⟨"Invalid translated recipe structure. Missing required fields.", none⟩
  else
    .ok { name := q.name.getD ""
          cookingTime := q.cookingTime
          ingredients := q.ingredients.getD []
          instructions := q.instructions.getD []
          detectedLanguage := Lang.ru }

/-- Model of AIService.processRecipe: extract, translate exactly when
the detected language is en, and assemble the stored record with
originalLanguage taken from the pre-translation extraction.  The
outcome of each AI call is an oracle parameter; the Bool records
whether the translation call was made. -/
def processRecipe (transcript youtubeUrl newId : String) (now : Int)
    (extOut trOut : Except AIServiceError ParsedRecipe) :
    Except AIServiceError (Recipe × Bool) :=
  match extOut with
  | .error e => .error e
  | .ok p =>
    match extractRecipeFromParsed p with
    | .error e => .error e
    | .ok ext =>
      match ext.detectedLanguage with
      | .ru =>
        .ok ({ id := newId, name := ext.name, cookingTime := ext.cookingTime
               ingredients := ext.ingredients, instructions := ext.instructions
               originalLanguage := Lang.ru, youtubeUrl := youtubeUrl
               transcript := transcript, createdAt := now }, false)
      | .en =>
        match trOut with
        | .error e => .error e
        | .ok q =>
          match translateFromParsed q with
          | .error e => .error e
          | .ok fin =>
            .ok ({ id := newId, name := fin.name, cookingTime := fin.cookingTime
                   ingredients := fin.ingredients, instructions := fin.instructions
                   originalLanguage := Lang.en, youtubeUrl := youtubeUrl
                   transcript := transcript, createdAt := now }, true)

/-! ## The /recipe command handler (recipe.ts)

handleRecipeCommand validates the URL, fetches the plain-text
transcript, rejects transcripts that are empty or shorter than 50
characters, runs the AI pipeline and stores the result; its catch
block maps each error class to a user-facing reply. -/

/-- Errors reaching the handler catch block, by class. -/
inductive BotError where
  | supa (e : SupadataError)
  | ai (e : AIServiceError)
  | plain (msg : String)
deriving DecidableEq, Repr

/-- The reply of the handler catch block. -/
def recipeErrorReply : BotError → String
  | .supa e =>
    if e.statusCode = some 404 then "❌ Transcript not available for this video."
    else "❌ Supadata error: " ++ e.message
  | .ai e => "❌ AI processing error: " ++ e.message
  | .plain m => "❌ Error: " ++ m

/-- What the handler sends at the end: an error text or the formatted
recipe card. -/
inductive BotReply where
  | errText (s : String)
  | card (r : Recipe)
deriving DecidableEq, Repr

/-- Model of RecipeHandler.handleRecipeCommand after URL extraction:
returns the resulting store, whether any AI call was made, and the
reply.  The transcript fetch and the two AI call outcomes are oracle
parameters. -/
def handleRecipeCore (st : List Recipe) (url : String) (f : SupadataFetch)
    (extOut trOut : Except AIServiceError ParsedRecipe) (newId : String) (now : Int) :
    List Recipe × Bool × BotReply :=
  match plainTextOf url f with
  | .error e => (st, false, .errText (recipeErrorReply (.supa e)))
  | .ok transcript =>
    if transcript = "" ∨ transcript.length < 50 then
      (st, false, .errText (recipeErrorReply (.plain "Transcript is too short or unavailable")))
    else
      match processRecipe transcript url newId now extOut trOut with
      | .error e => (st, false, .errText (recipeErrorReply (.ai e)))
      | .ok (r, _) => (memAdd r st, true, .card r)

/-- C4 (amended): validation succeeds exactly when the input contains
one of the five URL shape markers of the regex (watch, short-link,
embed, v, shorts) followed by at least one identifier character, or is
an 11-character bare identifier; on any other input getTranscript
fails with the Invalid YouTube URL format error and makes no network
request. -/
theorem C4_url_validation (url : String) (f : SupadataFetch) :
    ((extractVideoId url).isSome = true
      ↔ ((∃ i m, m ∈ urlMarkers5 ∧ shapeAt url.data m i) ∨ bareId url = true))
    ∧ (extractVideoId url = none →
        getTranscriptModel url f
          = (Except.error ⟨"Invalid YouTube URL format", none⟩, false)) := by
  refine ⟨extractVideoId_isSome url, ?_⟩
  intro hnone
  unfold getTranscriptModel
  rw [hnone]

theorem C4_url_validation_witness :
    ((extractVideoId "https://youtu.be/dQw4w9WgXcQ").isSome = true)
      ∧ getTranscriptModel "not a url!!" (SupadataFetch.httpFail 500 "ISE" "body")
          = (Except.error ⟨"Invalid YouTube URL format", none⟩, false) :=
  ⟨(C4_url_validation "https://youtu.be/dQw4w9WgXcQ"
        (SupadataFetch.httpFail 500 "ISE" "body")).1.mpr
      (Or.inl ⟨8, shortMarker, by decide, by decide, by decide⟩),
    (C4_url_validation "not a url!!" (SupadataFetch.httpFail 500 "ISE" "body")).2
      (by decide)⟩

/-- C5: whenever the fetched plain-text transcript is empty or shorter
than 50 characters, the handler fails with the fixed too-short error
reply before any AI call is made, and the store is unchanged. -/
theorem C5_short_transcript (st : List Recipe) (url : String) (f : SupadataFetch)
    (extOut trOut : Except AIServiceError ParsedRecipe) (newId : String) (now : Int)
    (transcript : String)
    (hok : plainTextOf url f = .ok transcript)
    (hshort : transcript = "" ∨ transcript.length < 50) :
    handleRecipeCore st url f extOut trOut newId now
      = (st, false, .errText "❌ Error: Transcript is too short or unavailable") := by
  unfold handleRecipeCore
  rw [hok]
  show (if transcript = "" ∨ transcript.length < 50 then
      (st, false,
        BotReply.errText (recipeErrorReply (BotError.plain "Transcript is too short or unavailable")))
    else _) = _
  rw [if_pos hshort]
  rfl

/-- Fetch outcome delivering a nine-character transcript. -/
def shortFetch : SupadataFetch := .httpOk ⟨none, none, .str "too short"⟩

theorem C5_short_transcript_witness :
    handleRecipeCore [] "https://youtu.be/dQw4w9WgXcQ" shortFetch
        (.ok ⟨some "X", none, some [], some [], some "ru"⟩)
        (.ok ⟨some "X", none, some [], some [], some "ru"⟩) "id1" 0
      = ([], false, .errText "❌ Error: Transcript is too short or unavailable") :=
  C5_short_transcript [] "https://youtu.be/dQw4w9WgXcQ" shortFetch
    (.ok ⟨some "X", none, some [], some [], some "ru"⟩)
    (.ok ⟨some "X", none, some [], some [], some "ru"⟩) "id1" 0
    "too short" rfl (by decide)

theorem extractRecipeFromParsed_fields (p : ParsedRecipe) (ext : ExtractedRecipe)
    (h : extractRecipeFromParsed p = .ok ext) :
    ext = { name := p.name.getD "", cookingTime := p.cookingTime
            ingredients := p.ingredients.getD [], instructions := p.instructions.getD []
            detectedLanguage := coerceLang p.detectedLanguage } := by
  unfold extractRecipeFromParsed at h
  by_cases hc : (!jsTruthy p.name || p.ingredients.isNone || p.instructions.isNone) = true
  · rw [if_pos hc] at h
    exact Except.noConfusion h
  · rw [if_neg hc] at h
    injection h with h2
    exact h2.symm

theorem translateFromParsed_fields (q : ParsedRecipe) (fin : ExtractedRecipe)
    (h : translateFromParsed q = .ok fin) :
    fin = { name := q.name.getD "", cookingTime := q.cookingTime
            ingredients := q.ingredients.getD [], instructions := q.instructions.getD []
            detectedLanguage := Lang.ru } := by
  unfold translateFromParsed at h
  by_cases hc : (!jsTruthy q.name || q.ingredients.isNone || q.instructions.isNone) = true
  · rw [if_pos hc] at h
    exact Except.noConfusion h
  · rw [if_neg hc] at h
    injection h with h2
    exact h2.symm

/-- C6: when the pre-translation detected language is en, the
translation call runs and the stored record takes name, cookingTime,
ingredients and instructions from the translated result, keeps
originalLanguage equal to the pre-translation tag en, and the
translated result has its detected-language field force-set to ru
whatever the model returned; when the detected language is ru, the
result does not depend on the translation oracle at all and the fields
pass through from the extraction, with the translation-call flag
false. -/
theorem C6_translation_flow (transcript youtubeUrl newId : String) (now : Int)
    (p q : ParsedRecipe) (ext : ExtractedRecipe)
    (hext : extractRecipeFromParsed p = .ok ext) :
    (ext.detectedLanguage = Lang.en →
      ∀ fin, translateFromParsed q = .ok fin →
        fin.detectedLanguage = Lang.ru ∧
        processRecipe transcript youtubeUrl newId now (.ok p) (.ok q)
          = .ok ({ id := newId, name := fin.name, cookingTime := fin.cookingTime
                   ingredients := fin.ingredients, instructions := fin.instructions
                   originalLanguage := Lang.en, youtubeUrl := youtubeUrl
                   transcript := transcript, createdAt := now }, true))
    ∧ (ext.detectedLanguage = Lang.ru →
        ∀ trOut trOut2 : Except AIServiceError ParsedRecipe,
          processRecipe transcript youtubeUrl newId now (.ok p) trOut
            = .ok ({ id := newId, name := ext.name, cookingTime := ext.cookingTime
                     ingredients := ext.ingredients, instructions := ext.instructions
                     originalLanguage := Lang.ru, youtubeUrl := youtubeUrl
                     transcript := transcript, createdAt := now }, false)
          ∧ processRecipe transcript youtubeUrl newId now (.ok p) trOut
            = processRecipe transcript youtubeUrl newId now (.ok p) trOut2) := by
  constructor
  · intro hen fin hfin
    constructor
    · rw [translateFromParsed_fields q fin hfin]
    · simp only [processRecipe, hext, hen, hfin]
  · intro hru trOut trOut2
    constructor
    · simp only [processRecipe, hext, hru]
    · simp only [processRecipe, hext, hru]

/-- Parsed extraction output in English. -/
def pEn : ParsedRecipe :=
  ⟨some "Pasta", some "30 minutes", some ["basil", "tomato", "pasta"], some ["boil"], some "en"⟩

/-- Parsed translation output; its detected-language field reads en to
exhibit the force-set. -/
def qRu : ParsedRecipe :=
  ⟨some "Паста", some "30 минут", some ["базилик", "томат", "паста"], some ["варить"], some "en"⟩

/-- Validated extraction of pEn. -/
def extEn : ExtractedRecipe :=
  ⟨"Pasta", some "30 minutes", ["basil", "tomato", "pasta"], ["boil"], Lang.en⟩

/-- Validated translation of qRu (language force-set to ru). -/
def finRu : ExtractedRecipe :=
  ⟨"Паста", some "30 минут", ["базилик", "томат", "паста"], ["варить"], Lang.ru⟩

theorem C6_translation_flow_witness :
    finRu.detectedLanguage = Lang.ru ∧
      processRecipe "t" "u" "id1" 0 (.ok pEn) (.ok qRu)
        = .ok ({ id := "id1", name := "Паста", cookingTime := some "30 минут"
                 ingredients := ["базилик", "томат", "паста"], instructions := ["варить"]
                 originalLanguage := Lang.en, youtubeUrl := "u"
                 transcript := "t", createdAt := 0 }, true) :=
  (C6_translation_flow "t" "u" "id1" 0 pEn qRu extEn rfl).1 rfl finRu rfl

/-- Parsed extraction naming pork among the ingredients, detected as
Russian. -/
def porkParsed : ParsedRecipe :=
  ⟨some "Stew", some "1 hour", some ["pork", "salt"], some ["cook"], some "ru"⟩

/-- A transcript of more than 50 characters for the pork run. -/
def porkTranscript : String :=
  "this transcript describes a hearty stew of pork and salt cooked slowly"

/-- Fetch outcome delivering the pork transcript. -/
def porkFetch : SupadataFetch := .httpOk ⟨none, none, .str porkTranscript⟩

/-- The record the handler stores for the pork run. -/
def porkRecipe : Recipe :=
  ⟨"id1", "Stew", some "1 hour", ["pork", "salt"], ["cook"], Lang.ru,
    "https://youtu.be/dQw4w9WgXcQ", porkTranscript, 0⟩

/-- C7 is false as stated: a parsed extraction whose ingredient list
names pork flows into the stored record verbatim — nothing in the
code replaces pork with the literal meat, that instruction exists only
inside the extraction prompt text. -/
theorem C7_counterexample :
    handleRecipeCore [] "https://youtu.be/dQw4w9WgXcQ" porkFetch
        (.ok porkParsed) (.ok porkParsed) "id1" 0
      = ([porkRecipe], true, .card porkRecipe)
    ∧ "pork" ∈ porkRecipe.ingredients := by
  constructor
  · rfl
  · exact List.mem_cons_self "pork" ["salt"]

/-- C7 (amended): the stored ingredient list is exactly the parsed
ingredient list of whichever AI result the record is built from —
the extraction when no translation ran, the translation otherwise —
with no replacement applied. -/
theorem C7_ingredients_verbatim (transcript youtubeUrl newId : String) (now : Int)
    (extOut trOut : Except AIServiceError ParsedRecipe) (r : Recipe) (b : Bool)
    (h : processRecipe transcript youtubeUrl newId now extOut trOut = .ok (r, b)) :
    (b = false → ∃ p, extOut = .ok p ∧ r.ingredients = p.ingredients.getD [])
    ∧ (b = true → ∃ q, trOut = .ok q ∧ r.ingredients = q.ingredients.getD []) := by
  cases extOut with
  | error e => simp [processRecipe] at h
  | ok p =>
    cases hE : extractRecipeFromParsed p with
    | error e => simp [processRecipe, hE] at h
    | ok ext =>
      have hfields := extractRecipeFromParsed_fields p ext hE
      cases hL : ext.detectedLanguage with
      | ru =>
        simp only [processRecipe, hE, hL, Except.ok.injEq, Prod.mk.injEq] at h
        obtain ⟨h1, h2⟩ := h
        subst h1
        subst h2
        refine ⟨fun _ => ⟨p, rfl, ?_⟩, fun hb => absurd hb (by simp)⟩
        show ext.ingredients = p.ingredients.getD []
        rw [hfields]
      | en =>
        cases trOut with
        | error e2 => simp [processRecipe, hE, hL] at h
        | ok q =>
          cases hT : translateFromParsed q with
          | error e3 => simp [processRecipe, hE, hL, hT] at h
          | ok fin =>
            have hf2 := translateFromParsed_fields q fin hT
            simp only [processRecipe, hE, hL, hT, Except.ok.injEq, Prod.mk.injEq] at h
            obtain ⟨h1, h2⟩ := h
            subst h1
            subst h2
            refine ⟨fun hb => absurd hb (by simp), fun _ => ⟨q, rfl, ?_⟩⟩
            show fin.ingredients = q.ingredients.getD []
            rw [hf2]

theorem C7_ingredients_verbatim_witness :
    ∃ p, (Except.ok porkParsed : Except AIServiceError ParsedRecipe) = .ok p
      ∧ porkRecipe.ingredients = p.ingredients.getD [] :=
  (C7_ingredients_verbatim porkTranscript "https://youtu.be/dQw4w9WgXcQ" "id1" 0
      (.ok porkParsed) (.ok porkParsed) porkRecipe false rfl).1 rfl

/-- C9 is false as stated: two transcript-fetch failures of the same
category (non-ok HTTP status 500, identical status text) whose provider
bodies differ produce different user-facing replies — the raw body is
interpolated into the SupadataError message and echoed by the handler. -/
theorem C9_counterexample :
    (handleRecipeCore [] "https://youtu.be/dQw4w9WgXcQ"
          (.httpFail 500 "Internal Server Error" "detailA")
          (.ok porkParsed) (.ok porkParsed) "id1" 0).2.2
        ≠ (handleRecipeCore [] "https://youtu.be/dQw4w9WgXcQ"
          (.httpFail 500 "Internal Server Error" "detailB")
          (.ok porkParsed) (.ok porkParsed) "id1" 0).2.2
    ∧ (handleRecipeCore [] "https://youtu.be/dQw4w9WgXcQ"
          (.httpFail 500 "Internal Server Error" "detailA")
          (.ok porkParsed) (.ok porkParsed) "id1" 0).2.2
        = .errText "❌ Supadata error: Supadata API error: Internal Server Error - detailA" := by
  constructor
  · decide
  · rfl

/-- C9 (amended): the replies of the genuinely categorical paths are
fixed — a 200 response carrying an error object and a 404 HTTP
failure both yield the constant transcript-not-available reply
whatever the provider sent; an AI failure with status 429 or an
insufficient-balance body yields the constant balance message; a 401
without a balance body yields the constant key message; and generic AI
failures with equal status and status text yield equal messages
whatever their bodies — but, per the counterexample, non-404 Supadata
failures do leak the body. -/
theorem C9_error_category_replies :
    (∀ d : TranscriptData,
        recipeErrorReply (.supa (transcriptUnavailableError d))
          = "❌ Transcript not available for this video.")
    ∧ (∀ statusText body : String,
        recipeErrorReply (.supa (supadataHttpError 404 statusText body))
          = "❌ Transcript not available for this video.")
    ∧ (∀ status : Nat, ∀ statusText body : String,
        (status = 429 ∨ containsSub "Insufficient balance" body = true) →
        zaiErrorMessage status statusText body
          = "❌ Z.AI account has insufficient balance. Please add credits at https://z.ai/manage-apikey/apikey-list")
    ∧ (∀ statusText body : String,
        containsSub "Insufficient balance" body = false →
        zaiErrorMessage 401 statusText body
          = "❌ Invalid Z.AI API key. Please check your .env file.")
    ∧ (∀ status : Nat, ∀ statusText b1 b2 : String,
        status ≠ 429 → status ≠ 401 →
        containsSub "Insufficient balance" b1 = false →
        containsSub "Insufficient balance" b2 = false →
        zaiErrorMessage status statusText b1 = zaiErrorMessage status statusText b2) := by
  refine ⟨?_, ?_, ?_, ?_, ?_⟩
  · intro d
    simp [recipeErrorReply, transcriptUnavailableError]
  · intro statusText body
    simp [recipeErrorReply, supadataHttpError]
  · intro status statusText body h
    rcases h with h | h
    · subst h
      simp [zaiErrorMessage]
    · simp [zaiErrorMessage, h]
  · intro statusText body h
    simp [zaiErrorMessage, h]
  · intro status statusText b1 b2 h429 h401 hb1 hb2
    have e1 : (status == 429) = false := beq_eq_false_iff_ne.mpr h429
    have e2 : (status == 401) = false := beq_eq_false_iff_ne.mpr h401
    simp [zaiErrorMessage, e1, e2, hb1, hb2]

theorem C9_error_category_replies_witness :
    recipeErrorReply (.supa (transcriptUnavailableError ⟨some "err", some "msg", .missing⟩))
        = "❌ Transcript not available for this video."
      ∧ zaiErrorMessage 500 "Internal Server Error" "detailA"
          = zaiErrorMessage 500 "Internal Server Error" "detailB" :=
  ⟨C9_error_category_replies.1 ⟨some "err", some "msg", .missing⟩,
    C9_error_category_replies.2.2.2.2 500 "Internal Server Error" "detailA" "detailB"
      (by decide) (by decide) (by decide) (by decide)⟩

/-! ## Adding-title input handling (bot message flow)

handleTitleInput trims the text, re-prompts on empty input, adopts the
AI title suggestion when the lowercased trimmed text equals either
accept-suggestion phrase, adopts the literal trimmed text otherwise,
and moves the session to the adding-photo state.  The suggestion call
is an oracle parameter. -/

/-- Whitespace for the JavaScript trim. -/
def wsChar (c : Char) : Bool :=
  c == ' ' || c.toNat == 9 || c.toNat == 10 || c.toNat == 11 || c.toNat == 12
    || c.toNat == 13 || c.toNat == 160 || c.toNat == 65279

/-- Model of String.prototype.trim. -/
def jsTrim (s : String) : String :=
  String.mk (((s.data.dropWhile wsChar).reverse.dropWhile wsChar).reverse)

/-- Session states of the dialogue flow. -/
inductive SessStateTag where
  | idle
  | addingRecipe
  | selectingCategory
  | addingTitle
  | addingPhoto
deriving DecidableEq, Repr

/-- A classified ingredient of the session. -/
structure IngredientM where
  name : String
  classification : String
deriving DecidableEq, Repr

/-- The session fields handleTitleInput reads and writes. -/
structure Session where
  state : SessStateTag
  classifiedIngredients : List IngredientM
  currentTitle : Option String
deriving DecidableEq, Repr

/-- The reply handleTitleInput sends: a re-prompt on empty input or
the confirmation naming the adopted title. -/
inductive TitleReply where
  | promptAgain
  | titleSet (t : String)
deriving DecidableEq, Repr

/-- Model of handleTitleInput; suggest is the oracle for
aiService.suggestTitle applied to the classified ingredient names. -/
def handleTitleInput (sess : Session) (text : String)
    (suggest : List String → String) : Session × TitleReply :=
  if (jsTrim text).length = 0 then
    (sess, .promptAgain)
  else if jsToLower (jsTrim text) = "use suggestion"
      ∨ jsToLower (jsTrim text) = "использовать предложение" then
    ({ sess with
        currentTitle := some (suggest (sess.classifiedIngredients.map (fun i => i.name)))
        state := SessStateTag.addingPhoto },
      .titleSet (suggest (sess.classifiedIngredients.map (fun i => i.name))))
  else
    ({ sess with currentTitle := some (jsTrim text), state := SessStateTag.addingPhoto },
      .titleSet (jsTrim text))

/-- C8: on non-empty trimmed input, if the lowercased trimmed text is
either accept-suggestion phrase the title becomes the AI suggestion
for the classified ingredient names (never the phrase itself), and
otherwise the title becomes the literal trimmed text; in both cases
the session moves to the adding-photo state. -/
theorem C8_title_input (sess : Session) (text : String)
    (suggest : List String → String) (hne : (jsTrim text).length ≠ 0) :
    ((jsToLower (jsTrim text) = "use suggestion"
        ∨ jsToLower (jsTrim text) = "использовать предложение") →
      (handleTitleInput sess text suggest).1.currentTitle
          = some (suggest (sess.classifiedIngredients.map (fun i => i.name)))
        ∧ (handleTitleInput sess text suggest).1.state = SessStateTag.addingPhoto
        ∧ (handleTitleInput sess text suggest).2
            = .titleSet (suggest (sess.classifiedIngredients.map (fun i => i.name))))
    ∧ (¬(jsToLower (jsTrim text) = "use suggestion"
        ∨ jsToLower (jsTrim text) = "использовать предложение") →
      (handleTitleInput sess text suggest).1.currentTitle = some (jsTrim text)
        ∧ (handleTitleInput sess text suggest).1.state = SessStateTag.addingPhoto
        ∧ (handleTitleInput sess text suggest).2 = .titleSet (jsTrim text)) := by
  constructor
  · intro hphrase
    unfold handleTitleInput
    rw [if_neg hne, if_pos hphrase]
    exact ⟨rfl, rfl, rfl⟩
  · intro hphrase
    unfold handleTitleInput
    rw [if_neg hne, if_neg hphrase]
    exact ⟨rfl, rfl, rfl⟩

/-- Session sitting in the adding-title state. -/
def sampleSession : Session :=
  ⟨SessStateTag.addingTitle, [⟨"томат", "vegetable"⟩, ⟨"паста", "grain"⟩], none⟩

/-- Constant suggestion oracle. -/
def sampleSuggest : List String → String := fun _ => "Паста с томатами"

theorem C8_title_input_witness :
    (handleTitleInput sampleSession "  USE SUGGESTION  " sampleSuggest).1.currentTitle
        = some (sampleSuggest (sampleSession.classifiedIngredients.map (fun i => i.name)))
      ∧ (handleTitleInput sampleSession "  USE SUGGESTION  " sampleSuggest).1.state
          = SessStateTag.addingPhoto
      ∧ (handleTitleInput sampleSession "  USE SUGGESTION  " sampleSuggest).2
          = .titleSet (sampleSuggest (sampleSession.classifiedIngredients.map (fun i => i.name))) :=
  (C8_title_input sampleSession "  USE SUGGESTION  " sampleSuggest (by decide)).1
    (Or.inl (by decide))
